import Mathlib

/-!
Verification of the rubric evaluation engine of `src/video_evaluator.py`.

The Python code is shallowly embedded over exact rationals (`ℚ`): Python
numbers become `ℚ`/`ℤ`, dicts become association lists with Python's
last-write-wins semantics, transcripts become `List Char`, the external
LLM scorer becomes an oracle returning `Option` responses (with `none`
standing for any call failure caught by the code's `try/except` blocks),
and uncaught `KeyError`s become `Except.error`.
-/

namespace VideoEval

/-- Python `round(q)`: round half to even (banker's rounding), as used by
`int(round(raw))` in `_normalize_new_format_result` and by
`round(avg_score)` in the aggregators. -/
def pyRound (q : ℚ) : ℤ :=
  let n : ℤ := ⌊q⌋
  let f : ℚ := q - n
  if f < 1/2 then n
  else if 1/2 < f then n + 1
  else if n % 2 = 0 then n else n + 1

/-- Python `round(q, 1)` (one decimal digit, half to even). -/
def round1 (q : ℚ) : ℚ := (pyRound (10 * q) : ℚ) / 10

/-- Python `int(q)`: truncation toward zero, as in `int(criterion['max_points'] * 0.6)`. -/
def pyInt (q : ℚ) : ℤ := if 0 ≤ q then ⌊q⌋ else -⌊-q⌋

/-- Last-binding lookup in an association list: the value of the latest
assignment `d[k] = v`, i.e. Python dict lookup for a dict built by
successive assignments (later writes win). -/
def lastAssoc {α : Type} (l : List (String × α)) (k : String) : Option α :=
  l.foldl (fun acc p => if p.1 = k then some p.2 else acc) none

/-- First-occurrence deduplication, structurally recursive on a fuel
bounded by the list length (each step drops at least the head). -/
def dedupKeysGo : Nat → List String → List String
  | 0, _ => []
  | _, [] => []
  | n + 1, k :: rest => k :: dedupKeysGo n (rest.filter (fun x => x ≠ k))

/-- First-occurrence deduplication (the key order of a Python dict, and
the iteration ordering we fix for Python's unordered `set`). -/
def dedupKeys (l : List String) : List String := dedupKeysGo l.length l

/-- Keys of a Python dict built from the given assignment sequence, in
first-insertion order. -/
def dictKeys {α : Type} (l : List (String × α)) : List String :=
  dedupKeys (l.map Prod.fst)

/-- `d.items()` of a Python dict built from the given assignment sequence:
keys in first-insertion order, each with its last-written value. -/
def dictItems {α : Type} (l : List (String × α)) : List (String × α) :=
  (dictKeys l).filterMap (fun k => (lastAssoc l k).map (fun v => (k, v)))

/-- Python `' | '.join`-style separator join. -/
def joinSep (sep : String) : List String → String
  | [] => ""
  | [x] => x
  | x :: y :: xs => x ++ sep ++ joinSep sep (y :: xs)

/- ## Data model (hierarchical "new" rubric format) -/

structure Criterion where
  criterion_id : String
  label : String
  max_points : ℤ
deriving Repr, DecidableEq

structure Category where
  category_id : String
  label : String
  weight : ℚ
  max_points : ℤ
  criteria : List Criterion
deriving Repr, DecidableEq

structure Scale where
  min : ℚ
  max : ℚ
deriving Repr, DecidableEq

structure Thresholds where
  pass : ℚ
  revise : ℚ
deriving Repr, DecidableEq

/-- New-format rubric.  The typed embedding keeps exactly the fields the
evaluator reads; presence of `rubric_id`/`name`/`version` is a key-set
check subsumed by typing. -/
structure NewRubric where
  categories : List Category
  scale : Scale
  thresholds : Thresholds
deriving Repr, DecidableEq

def totalCriteria (r : NewRubric) : Nat :=
  (r.categories.map (fun cat => cat.criteria.length)).sum

def allCriterionIds (r : NewRubric) : List String :=
  r.categories.flatMap (fun cat => cat.criteria.map (fun cr => cr.criterion_id))

/- ## Rubric validator (`_validate_new_rubric_format`)

The Python validator also guards against wrongly-typed JSON values with
`try/except (TypeError, ValueError)`; in the typed embedding all numeric
fields are already numbers, so those coercion branches cannot fire.
Error strings keep only the violated-invariant text, without the
offending ids interpolated. -/

/-- Per-criterion loop of `_validate_new_rubric_format`: checks duplicate
criterion ids (scoped to the category) and positivity, accumulating the
sum of criterion `max_points`. -/
def validateCriteriaLoop : List Criterion → List String → ℤ → Except String ℤ
  | [], _, acc => .ok acc
  | cr :: rest, seen, acc =>
    if cr.criterion_id ∈ seen then .error "Duplicate criterion ID in category"
    else if cr.max_points ≤ 0 then .error "Criterion max_points must be positive"
    else validateCriteriaLoop rest (cr.criterion_id :: seen) (acc + cr.max_points)

/-- Per-category loop of `_validate_new_rubric_format`, accumulating seen
category ids, the total category weight and `total_max_points` (which the
source computes but never uses). -/
def validateCategoriesLoop : List Category → List String → ℚ → ℤ → Except String (ℚ × ℤ)
  | [], _, w, t => .ok (w, t)
  | cat :: rest, seen, w, t =>
    if cat.category_id ∈ seen then .error "Duplicate category ID"
    else if cat.weight < 0 ∨ 1 < cat.weight then .error "Category weight must be between 0 and 1"
    else if cat.max_points ≤ 0 then .error "Category max_points must be positive"
    else if cat.criteria.isEmpty then .error "Category criteria must be a non-empty list"
    else
      match validateCriteriaLoop cat.criteria [] 0 with
      | .error e => .error e
      | .ok categoryPoints =>
        if categoryPoints ≠ cat.max_points then
          .error "Category max_points must equal sum of criterion max_points"
        else validateCategoriesLoop rest (cat.category_id :: seen) (w + cat.weight) (t + cat.max_points)

/-- `_validate_new_rubric_format` (lines 83–185).  Note that the source
accumulates `total_max_points` but never compares it to `scale.max`; the
only scale check performed is `min < max`. -/
def validateNewRubricFormat (r : NewRubric) : Bool × Option String :=
  if r.categories.isEmpty then (false, some "categories must be a non-empty list")
  else
    match validateCategoriesLoop r.categories [] 0 0 with
    | .error e => (false, some e)
    | .ok (totalWeight, _totalMaxPoints) =>
      if ¬ (99/100 ≤ totalWeight ∧ totalWeight ≤ 101/100) then
        (false, some "Category weights must sum to 1.0")
      else if r.scale.max ≤ r.scale.min then (false, some "scale min must be less than max")
      else if r.thresholds.pass ≤ r.thresholds.revise then
        (false, some "revise threshold must be less than pass threshold")
      else (true, none)

/- ## Chunker (`_chunk_transcript`, lines 1079–1125) -/

/-- Characters Python's `str.strip()` removes (ASCII whitespace). -/
def isPySpace (c : Char) : Bool :=
  c = ' ' ∨ c = '\t' ∨ c = '\n' ∨ c = '\r' ∨ c = '\x0B' ∨ c = '\x0C'

/-- `transcript[i] in '.!?\n'`. -/
def isBreakChar (c : Char) : Bool := c = '.' ∨ c = '!' ∨ c = '?' ∨ c = '\n'

/-- Python `s.strip()` on a character list. -/
def pyStrip (l : List Char) : List Char :=
  ((l.dropWhile isPySpace).reverse.dropWhile isPySpace).reverse

/-- The `break_candidates` list: positions `i + 1` for every
sentence-terminal character at index `i` in `range(max(start, end-200), end)`.
The lookback width is the hard-coded `200` of the source, not `overlap`. -/
def breakCandidates (t : List Char) (lo hi : Nat) : List Nat :=
  (List.range' lo (hi - lo)).filterMap (fun i =>
    match t.get? i with
    | some c => if isBreakChar c then some (i + 1) else none
    | none => none)

/-- The adjusted chunk boundary for a window starting at `start`:
`start + chunk_size`, moved back to the last sentence break in the
lookback region when the window does not reach the end of the text. -/
def chunkEnd (t : List Char) (cs start : Nat) : Nat :=
  let e0 := start + cs
  if e0 < t.length then
    match (breakCandidates t (max start (e0 - 200)) e0).getLast? with
    | some b => b
    | none => e0
  else e0

/-- `start = max(start + 1, end - overlap)` — the monotonic-progress update. -/
def chunkNextStart (t : List Char) (cs ov start : Nat) : Nat :=
  max (start + 1) (chunkEnd t cs start - ov)

/-- The `while start < len(transcript)` loop of `_chunk_transcript`,
structurally recursive on a fuel that `t.length` always suffices for
(the start position strictly increases each iteration; the
fuel-irrelevance theorem below is the termination argument). -/
def chunkLoop (t : List Char) (cs ov : Nat) : Nat → Nat → List (List Char)
  | 0, _ => []
  | fuel + 1, start =>
    if start < t.length then
      if (pyStrip ((t.drop start).take (chunkEnd t cs start - start))).isEmpty then
        chunkLoop t cs ov fuel (chunkNextStart t cs ov start)
      else
        pyStrip ((t.drop start).take (chunkEnd t cs start - start)) ::
          chunkLoop t cs ov fuel (chunkNextStart t cs ov start)
    else []

/-- `_chunk_transcript`: one chunk when the text fits, otherwise the loop. -/
def chunkTranscript (t : List Char) (cs ov : Nat) : List (List Char) :=
  if t.length ≤ cs then [t] else chunkLoop t cs ov t.length 0

/- ## Scorer responses and evaluation results -/

/-- One criterion entry of a parsed scorer response; each key may be
absent (`score`/`confidence`/`note` are read with `.get` defaults where
the source uses `.get`). -/
structure RawEntry where
  score : Option ℚ
  confidence : Option ℚ
  note : Option String
deriving Repr, DecidableEq

/-- A criterion entry after normalization/aggregation: `score` is always
set; `confidence` and `note` are kept only when present. -/
structure Entry where
  score : ℚ
  confidence : Option ℚ
  note : Option String
deriving Repr, DecidableEq

/-- A `categories[cat_id]` block (also the shape of the scorer-reported
singular `category` block of a per-category response). -/
structure CatStats where
  points : ℚ
  max_points : ℚ
  percentage : ℚ
deriving Repr, DecidableEq

/-- Scorer-reported `overall` block of a new-format response.  The
normalizer overwrites every field it publishes, so these values are data
the code must ignore. -/
structure OverallIn where
  total_points : Option ℚ
  max_points : Option ℚ
  percentage : Option ℚ
  pass_status : Option String
deriving Repr, DecidableEq

/-- A parsed new-format scorer response (post `json.loads`). -/
structure RawResult where
  scores : List (String × RawEntry)
  overall : Option OverallIn
  category : Option CatStats
  short_summary : Option String
deriving Repr, DecidableEq

/-- Recomputed `overall` block of a final result. -/
structure Overall where
  total_points : ℚ
  max_points : ℚ
  percentage : ℚ
  pass_status : String
deriving Repr, DecidableEq

/-- A final (normalized or aggregated) evaluation result.  `category` is
the untouched pass-through of a single-category response's singular
`category` key (the normalizer never rewrites it). -/
structure EvalResult where
  scores : List (String × Entry)
  categories : List (String × CatStats)
  overall : Overall
  category : Option CatStats
  short_summary : Option String
deriving Repr, DecidableEq

/-- `'pass' if total >= pass else ('revise' if total >= revise else 'fail')`. -/
def passStatusOf (th : Thresholds) (total : ℚ) : String :=
  if th.pass ≤ total then "pass" else if th.revise ≤ total then "revise" else "fail"

/- ## Result normalizer (`_normalize_new_format_result`, lines 2252–2331) -/

/-- The `crit_max` dict (criterion id → `max_points`, later categories
overwriting earlier duplicates), looked up with default `0`. -/
def critMaxD (r : NewRubric) (cid : String) : ℤ :=
  (lastAssoc (r.categories.flatMap
    (fun cat => cat.criteria.map (fun cr => (cr.criterion_id, cr.max_points)))) cid).getD 0

/-- The `crit_to_cat` dict (criterion id → owning category id). -/
def critToCat (r : NewRubric) (cid : String) : Option String :=
  lastAssoc (r.categories.flatMap
    (fun cat => cat.criteria.map (fun cr => (cr.criterion_id, cat.category_id)))) cid

/-- `cat_max.items()`: category id → category `max_points`. -/
def catMaxItems (r : NewRubric) : List (String × ℤ) :=
  dictItems (r.categories.map (fun cat => (cat.category_id, cat.max_points)))

/-- Per-criterion clamp of the normalizer:
`max(0, min(int(round(raw)), m))`, plus the 1–10 clamp of `confidence`
when that key is present. -/
def clampEntry (r : NewRubric) (cid : String) (d : RawEntry) : Entry :=
  { score := ((max 0 (min (pyRound (d.score.getD 0)) (critMaxD r cid)) : ℤ) : ℚ)
    confidence := d.confidence.map (fun c => ((max 1 (min (pyRound c) 10) : ℤ) : ℚ))
    note := d.note }

/-- The clamped `scores` dict of the normalizer. -/
def normScores (r : NewRubric) (rawScores : List (String × RawEntry)) : List (String × Entry) :=
  (dictItems rawScores).map (fun p => (p.1, clampEntry r p.1 p.2))

/-- Points accumulated into one category: every clamped score whose
criterion the `crit_to_cat` dict assigns to this category. -/
def catPointsAcc (r : NewRubric) (scores : List (String × Entry)) (catId : String) : ℚ :=
  scores.foldl (fun acc p => if critToCat r p.1 = some catId then acc + p.2.score else acc) 0

/-- The recomputed `categories` dict of the normalizer: per-category sums
of clamped criterion scores, with the category total itself clamped to
`[0, max_points]`. -/
def normCategories (r : NewRubric) (scores : List (String × Entry)) : List (String × CatStats) :=
  (catMaxItems r).map (fun p =>
    let pts : ℤ := max 0 (min (pyInt (catPointsAcc r scores p.1)) (pyInt (p.2 : ℚ)))
    (p.1, { points := (pts : ℚ)
            max_points := ((p.2 : ℤ) : ℚ)
            percentage := if (0 : ℤ) < p.2 then ((pts : ℚ) / ((p.2 : ℤ) : ℚ)) * 100 else 0 }))

/-- The recomputed `overall` block of the normalizer. -/
def normOverall (r : NewRubric) (categories : List (String × CatStats)) : Overall :=
  let total : ℚ := (categories.map (fun p => p.2.points)).sum
  let maxPts : ℚ := (categories.map (fun p => p.2.max_points)).sum
  let percentage : ℚ := if 0 < maxPts then (total / maxPts) * 100 else 0
  { total_points := (pyInt total : ℚ)
    max_points := (pyInt maxPts : ℚ)
    percentage := round1 percentage
    pass_status := passStatusOf r.thresholds total }

/-- `_normalize_new_format_result`: clamp criterion scores, recompute the
`categories` and `overall` blocks, pass everything else through.  The
rubric's thresholds are numbers in the typed embedding, so the
`isinstance` guard of the source always takes the recompute branch. -/
def normalizeNewFormatResult (r : NewRubric) (res : RawResult) : EvalResult :=
  let scores := normScores r res.scores
  let categories := normCategories r scores
  { scores := scores
    categories := categories
    overall := normOverall r categories
    category := res.category
    short_summary := res.short_summary }

/- ## Shared result-assembly shapes

Every hierarchical-path builder ends by computing
`total_points = sum(points)`, `max_points = sum(max_points)`, a
percentage and a threshold-derived `pass_status`.  The guarded variant
carries the `if max_points > 0 else 0` check of lines 1680/1994; the
unguarded variant mirrors the bare divisions of lines 2040/2083/2232. -/

def overallGuarded (th : Thresholds) (categories : List (String × CatStats)) : Overall :=
  let total : ℚ := (categories.map (fun p => p.2.points)).sum
  let maxP : ℚ := (categories.map (fun p => p.2.max_points)).sum
  { total_points := total, max_points := maxP
    percentage := round1 (if 0 < maxP then (total / maxP) * 100 else 0)
    pass_status := passStatusOf th total }

def overallUnguarded (th : Thresholds) (categories : List (String × CatStats)) : Overall :=
  let total : ℚ := (categories.map (fun p => p.2.points)).sum
  let maxP : ℚ := (categories.map (fun p => p.2.max_points)).sum
  { total_points := total, max_points := maxP
    percentage := round1 ((total / maxP) * 100)
    pass_status := passStatusOf th total }

/- ## Conservative fallbacks -/

/-- The fallback-note marker string shared by every conservative score. -/
def conservMarker : String := "Auto-generated conservative score"

/-- The conservative per-criterion point value `int(max_points * 0.6)`. -/
def conservScore (cr : Criterion) : ℤ := pyInt ((cr.max_points : ℚ) * (3/5))

/-- The `categories` dict built by both fallback evaluators: per
category, the sum of its criteria's conservative scores, unclamped, with
an unguarded percentage division. -/
def fallbackCategories (r : NewRubric) : List (String × CatStats) :=
  dictItems (r.categories.map (fun cat =>
    let pts : ℤ := (cat.criteria.map conservScore).sum
    (cat.category_id,
      ({ points := (pts : ℚ)
         max_points := ((cat.max_points : ℤ) : ℚ)
         percentage := ((pts : ℚ) / ((cat.max_points : ℤ) : ℚ)) * 100 } : CatStats))))

/-- `_fallback_new_rubric_evaluation` (lines 2206–2250): every criterion
scored at `int(max_points * 0.6)`, confidence 3, marker note.  The
percentage divisions are unguarded in the source (a zero `max_points`
would raise `ZeroDivisionError`); over `ℚ` division by zero yields 0. -/
def fallbackNewRubricEvaluation (r : NewRubric) : EvalResult :=
  let scores := dictItems (r.categories.flatMap (fun cat => cat.criteria.map (fun cr =>
    (cr.criterion_id,
      ({ score := ((conservScore cr : ℤ) : ℚ)
         confidence := some 3
         note := some conservMarker } : Entry)))))
  let categories := fallbackCategories r
  { scores := scores
    categories := categories
    overall := overallUnguarded r.thresholds categories
    category := none
    short_summary := some "Auto-generated conservative evaluation" }

/-- `_fallback_single_chunk_evaluation` (lines 2014–2057): identical
scores to the full fallback but with a chunk-specific note and summary. -/
def fallbackSingleChunkEvaluation (r : NewRubric) : EvalResult :=
  let scores := dictItems (r.categories.flatMap (fun cat => cat.criteria.map (fun cr =>
    (cr.criterion_id,
      ({ score := ((conservScore cr : ℤ) : ℚ)
         confidence := some 3
         note := some (conservMarker ++ " for chunk") } : Entry)))))
  let categories := fallbackCategories r
  { scores := scores
    categories := categories
    overall := overallUnguarded r.thresholds categories
    category := none
    short_summary := some "Auto-generated conservative chunk evaluation" }

/- ## Scorer oracle

The external LLM is abstracted as an oracle giving, for every scoring
unit, either the parsed JSON response (`some`) or `none` for any call
failure the source catches (`except Exception`) — network/auth errors
and unparseable output alike. -/

/-- A parsed single-category response: its `scores` dict and the
scorer-reported singular `category` block (absent when the scorer omits
that key). -/
structure CatResponse where
  scores : List (String × RawEntry)
  category : Option CatStats
deriving Repr, DecidableEq

structure Scorer where
  single : Option RawResult
  chunk : Nat → Option RawResult
  catChunk : String → Nat → Option (List (String × RawEntry))
  cat : String → Option CatResponse

/-- The scorer whose every call fails. -/
def allFailScorer : Scorer :=
  { single := none, chunk := fun _ => none, catChunk := fun _ _ => none, cat := fun _ => none }

/- ## Transcript-chunked aggregation (`_aggregate_chunk_results`, lines 1912–2012) -/

/-- The `crit_max` search loop of the aggregators (lines 1942–1950 and
1638–1646): first match within a category wins, but the outer loop only
stops once a non-zero value was found. -/
def critMaxScanGo (cid : String) : List Category → ℤ → ℤ
  | [], v => v
  | cat :: rest, v =>
    let vNew := match cat.criteria.find? (fun cr => cr.criterion_id == cid) with
      | some cr => cr.max_points
      | none => v
    if vNew ≠ 0 then vNew else critMaxScanGo cid rest vNew

def critMaxScan (r : NewRubric) (cid : String) : ℤ := critMaxScanGo cid r.categories 0

/-- All chunk contributions for one criterion, in chunk order. -/
def contributionsNew (scoreMaps : List (List (String × Entry))) (cid : String) : List Entry :=
  scoreMaps.filterMap (fun m => lastAssoc m cid)

/-- Maximum of a non-empty list as Python's `max` computes it (the `[]`
default is unreachable, matching the guarded uses in the source). -/
def pyMax (l : List ℚ) : ℚ :=
  match l with
  | [] => 5
  | c :: cs => cs.foldl max c

/-- One aggregated criterion entry of `_aggregate_chunk_results`: mean
score clamped via `max(0, min(round(avg), crit_max))`, maximum
confidence, combined chunk-count-prefixed note. -/
def aggEntryNew (r : NewRubric) (scoreMaps : List (List (String × Entry))) (cid : String) :
    Entry :=
  let L := contributionsNew scoreMaps cid
  if L.isEmpty then
    { score := 0, confidence := some 3
      note := some "No scores available from chunks" }
  else
    let scoresFor := L.map (fun e => e.score)
    let avg : ℚ := scoresFor.sum / (scoresFor.length : ℚ)
    let clamped : ℤ := max 0 (min (pyRound avg) (critMaxScan r cid))
    let maxConf : ℚ := pyMax (L.map (fun e => e.confidence.getD 5))
    let combined := joinSep " | " ((L.map (fun e => e.note.getD "")).filter (fun s => s ≠ ""))
    { score := (clamped : ℚ), confidence := some maxConf
      note := some ("Aggregated from " ++ toString L.length ++ " chunks: " ++ combined) }

/-- The aggregated `scores` dict of `_aggregate_chunk_results`.  The
criterion-id set is iterated in first-appearance order (Python uses an
unordered `set`; only the dict order, not any value, depends on it). -/
def aggregateScoresNew (r : NewRubric) (scoreMaps : List (List (String × Entry))) :
    List (String × Entry) :=
  (dedupKeys (scoreMaps.flatMap (fun m => m.map Prod.fst))).map
    (fun cid => (cid, aggEntryNew r scoreMaps cid))

/-- The recomputed `categories` dict of `_aggregate_chunk_results`
(lines 1970–1989): per category, the sum of the already-clamped
aggregated scores of its criteria, itself clamped to `[0, max_points]`. -/
def aggCategories (r : NewRubric) (agg : List (String × Entry)) : List (String × CatStats) :=
  dictItems (r.categories.map (fun cat =>
    let pts : ℚ := (cat.criteria.map (fun cr =>
      match lastAssoc agg cr.criterion_id with
      | some e => e.score
      | none => 0)).sum
    let ptsC : ℚ := max 0 (min pts ((cat.max_points : ℤ) : ℚ))
    (cat.category_id,
      ({ points := ptsC
         max_points := ((cat.max_points : ℤ) : ℚ)
         percentage := if (0 : ℤ) < cat.max_points then (ptsC / ((cat.max_points : ℤ) : ℚ)) * 100 else 0 } : CatStats))))

/-- `_aggregate_chunk_results`: aggregate the per-chunk score dicts, then
recompute category totals (clamped) and the overall block. -/
def aggregateChunkResults (r : NewRubric) (chunkResults : List EvalResult) : EvalResult :=
  if chunkResults.isEmpty then fallbackNewRubricEvaluation r
  else
    let agg := aggregateScoresNew r (chunkResults.map (fun res => res.scores))
    let categories := aggCategories r agg
    { scores := agg
      categories := categories
      overall := overallGuarded r.thresholds categories
      category := none
      short_summary := some ("Evaluated " ++ toString chunkResults.length ++
        " transcript chunks with " ++ toString agg.length ++ " criteria") }

/-- `_evaluate_single_chunk` as seen by the orchestrator: a successful
call is normalized, any failure (its own fallback or the caller's
`except`) yields the chunk fallback. -/
def evalSingleChunkUnit (r : NewRubric) (resp : Option RawResult) : EvalResult :=
  match resp with
  | some raw => normalizeNewFormatResult r raw
  | none => fallbackSingleChunkEvaluation r

/- ## Both-axes path (`_evaluate_transcript_and_category_chunked`, lines 1589–1698) -/

/-- `_evaluate_single_category_in_chunk`: a successful call's scores are
clamped by the normalizer (the caller reads only `result['scores']`);
any failure yields the per-category chunk fallback. -/
def evalSingleCategoryInChunk (r : NewRubric) (cat : Category) (chunkNum : Nat)
    (resp : Option (List (String × RawEntry))) : List (String × Entry) :=
  match resp with
  | some raws =>
    (normalizeNewFormatResult r
      { scores := raws, overall := none, category := none, short_summary := none }).scores
  | none =>
    cat.criteria.map (fun cr => (cr.criterion_id,
      ({ score := ((conservScore cr : ℤ) : ℚ)
         confidence := some 3
         note := some (conservMarker ++ " for category " ++ cat.label ++
           " in chunk " ++ toString chunkNum) } : Entry)))

/-- One aggregated criterion of the both-axes path (lines 1635–1656):
the entry stored in the category result, paired with the clamped score
added to `category_points`. -/
def bothAxesEntry (r : NewRubric) (contribs : List (String × Entry)) (cid : String) :
    (String × Entry) × ℤ :=
  let L := contribs.filterMap (fun p => if p.1 = cid then some p.2 else none)
  let avg : ℚ := (L.map (fun e => e.score)).sum / (L.length : ℚ)
  let clamped : ℤ := max 0 (min (pyRound avg) (critMaxScan r cid))
  let maxConf : ℚ := pyMax (L.map (fun e => e.confidence.getD 5))
  let combined := joinSep " | " ((L.map (fun e => e.note.getD "")).filter (fun s => s ≠ ""))
  ((cid, ({ score := (clamped : ℚ), confidence := some maxConf
            note := some ("Aggregated from " ++ toString L.length ++ " chunks: " ++ combined) } : Entry)),
   clamped)

/-- A category-points block clamped to `[0, max_points]` with a guarded
percentage — the shape built at lines 1656–1666 (and 1982–1988). -/
def clampCatStats (pts m : ℤ) : CatStats :=
  let ptsC : ℤ := max 0 (min pts m)
  { points := (ptsC : ℚ)
    max_points := ((m : ℤ) : ℚ)
    percentage := if (0 : ℤ) < m then ((ptsC : ℚ) / ((m : ℤ) : ℚ)) * 100 else 0 }

/-- One category's aggregation in the both-axes path (lines 1631–1667):
the aggregated score entries of the category and its clamped points. -/
def bothAxesCatResult (r : NewRubric) (pc : Category × List (String × Entry)) :
    String × (List (String × Entry) × CatStats) :=
  let cat := pc.1
  let contribs := pc.2
  let cids := dedupKeys (contribs.map Prod.fst)
  let aggPairs : List ((String × Entry) × ℤ) := cids.map (fun cid =>
    bothAxesEntry r contribs cid)
  let pts : ℤ := (aggPairs.map (fun q => q.2)).sum
  (cat.category_id, (aggPairs.map (fun q => q.1), clampCatStats pts cat.max_points))

/-- The merged `categories` dict of the both-axes path. -/
def bothAxesCategories (r : NewRubric)
    (perCat : List (Category × List (String × Entry))) : List (String × CatStats) :=
  dictItems ((perCat.map (bothAxesCatResult r)).map (fun p => (p.1, p.2.2)))

/-- The aggregation stage of the both-axes path (lines 1631–1698),
executed once per category over its per-chunk contributions.  All
contributing entries carry `confidence` and `note` here (the Except
wrapper below checks this before calling). -/
def bothAxesBuild (r : NewRubric) (numChunks : Nat)
    (perCat : List (Category × List (String × Entry))) : EvalResult :=
  let catResults := perCat.map (bothAxesCatResult r)
  let allScores := dictItems (catResults.flatMap (fun p => p.2.1))
  let allCats := dictItems (catResults.map (fun p => (p.1, p.2.2)))
  { scores := allScores
    categories := allCats
    overall := overallGuarded r.thresholds allCats
    category := none
    short_summary := some ("Evaluated " ++ toString allCats.length ++
      " categories across " ++ toString numChunks ++ " transcript chunks") }

def bothAxesNumChunks (text : List Char) : Nat := (chunkTranscript text 8000 200).length

/-- The per-category contribution lists of the both-axes path: for each
category, the scores merged from every transcript chunk (lines 1598–1629). -/
def bothAxesPerCat (r : NewRubric) (text : List Char) (scorer : Scorer) :
    List (Category × List (String × Entry)) :=
  r.categories.map (fun cat =>
    (cat, (List.range (bothAxesNumChunks text)).flatMap (fun i =>
      evalSingleCategoryInChunk r cat (i + 1) (scorer.catChunk cat.category_id (i + 1)))))

/-- `_evaluate_transcript_and_category_chunked`.  Its aggregation reads
`s['confidence']` and `s['note']` with bare indexing (lines 1648–1649):
a contributing entry missing either key raises an uncaught `KeyError`,
modelled as `Except.error`. -/
def evalTranscriptAndCategoryChunked (r : NewRubric) (text : List Char) (scorer : Scorer) :
    Except String EvalResult :=
  if (bothAxesPerCat r text scorer).all
      (fun p => p.2.all (fun q => q.2.confidence.isSome && q.2.note.isSome)) then
    .ok (bothAxesBuild r (bothAxesNumChunks text) (bothAxesPerCat r text scorer))
  else .error "KeyError"

/- ## Transcript-chunked and single-call paths -/

/-- `_evaluate_transcript_chunked` (lines 1554–1587). -/
def evalTranscriptChunked (r : NewRubric) (text : List Char) (scorer : Scorer) :
    Except String EvalResult :=
  if 10 < totalCriteria r then evalTranscriptAndCategoryChunked r text scorer
  else
    let chunks := chunkTranscript text 8000 200
    .ok (aggregateChunkResults r
      ((List.range chunks.length).map (fun i => evalSingleChunkUnit r (scorer.chunk (i + 1)))))

/-- `_evaluate_simple_rubric` (lines 1443–1552): chunk when the transcript
is long, otherwise one call — normalized on success, full fallback on
failure. -/
def evalSimpleRubric (r : NewRubric) (text : List Char) (scorer : Scorer) :
    Except String EvalResult :=
  if 4000 < text.length then evalTranscriptChunked r text scorer
  else
    match scorer.single with
    | some raw => .ok (normalizeNewFormatResult r raw)
    | none => .ok (fallbackNewRubricEvaluation r)

/- ## Category-only path (`_evaluate_complex_rubric_chunked`, lines 2059–2204) -/

/-- `_evaluate_single_category` plus the caller's immediate reads: on
success the normalizer clamps the scores but the singular `category`
block is read back verbatim — `category_result['category']` raises
`KeyError` when a successful response omits it.  On failure, the
conservative per-category fallback (confidence 5). -/
def evalSingleCategoryUnit (r : NewRubric) (cat : Category) (resp : Option CatResponse) :
    Except String (List (String × Entry) × CatStats) :=
  match resp with
  | some response =>
    let n := normalizeNewFormatResult r
      { scores := response.scores, overall := none
        category := response.category, short_summary := none }
    match n.category with
    | some blk => .ok (n.scores, blk)
    | none => .error "KeyError: category"
  | none =>
    let pts : ℤ := (cat.criteria.map conservScore).sum
    .ok (cat.criteria.map (fun cr => (cr.criterion_id,
          ({ score := ((conservScore cr : ℤ) : ℚ)
             confidence := some 5
             note := some conservMarker } : Entry))),
        { points := (pts : ℚ)
          max_points := ((cat.max_points : ℤ) : ℚ)
          percentage := if (0 : ℤ) < cat.max_points then ((pts : ℚ) / ((cat.max_points : ℤ) : ℚ)) * 100 else 0 })

/-- The per-category scoring loop of `_evaluate_complex_rubric_chunked`
(lines 2069–2078); the first uncaught `KeyError` aborts it. -/
def categoryOnlyUnits (r : NewRubric) (scorer : Scorer) :
    Except String (List (String × (List (String × Entry) × CatStats))) :=
  r.categories.mapM (fun cat =>
    (evalSingleCategoryUnit r cat (scorer.cat cat.category_id)).map
      (fun u => (cat.category_id, u)))

/-- The merge of `_evaluate_complex_rubric_chunked` (lines 2080–2101):
scores and category blocks collected as written, overall recomputed with
an unguarded percentage division (line 2083). -/
def categoryOnlyMerge (r : NewRubric)
    (units : List (String × (List (String × Entry) × CatStats))) : EvalResult :=
  let allScores := dictItems (units.flatMap (fun p => p.2.1))
  let allCats := dictItems (units.map (fun p => (p.1, p.2.2)))
  { scores := allScores
    categories := allCats
    overall := overallUnguarded r.thresholds allCats
    category := none
    short_summary := some ("Evaluated " ++ toString allCats.length ++
      " categories with " ++ toString allScores.length ++ " criteria") }

/-- `_evaluate_complex_rubric_chunked`: transcript chunking takes over
for long transcripts; otherwise one scoring call per category, merged. -/
def evalComplexRubricChunked (r : NewRubric) (text : List Char) (scorer : Scorer) :
    Except String EvalResult :=
  if 4000 < text.length then evalTranscriptChunked r text scorer
  else (categoryOnlyUnits r scorer).map (categoryOnlyMerge r)

/-- `_evaluate_with_new_rubric_format` (lines 1136–1145). -/
def evaluateNewRubricFormat (r : NewRubric) (text : List Char) (scorer : Scorer) :
    Except String EvalResult :=
  if 10 < totalCriteria r then evalComplexRubricChunked r text scorer
  else evalSimpleRubric r text scorer

/- ## Flat "old" rubric format -/

structure OldCriterion where
  id : String
  label : String
  desc : String
  weight : ℚ
deriving Repr, DecidableEq

structure OldRubric where
  criteria : List OldCriterion
  scale : Scale
  overall_method : String
  thresholds : Thresholds
deriving Repr, DecidableEq

structure OldOverall where
  weighted_score : ℚ
  method : String
  pass_status : String
deriving Repr, DecidableEq

/-- A flat-format result; also the shape of a parsed flat-format scorer
response, which the un-chunked success path returns unchanged. -/
structure OldResult where
  scores : List (String × RawEntry)
  overall : OldOverall
  short_summary : String
deriving Repr, DecidableEq

def Entry.toRaw (e : Entry) : RawEntry :=
  { score := some e.score, confidence := e.confidence, note := e.note }

/-- The flat-format conservative fallback (lines 1237–1244): every
criterion scored 6, weighted mean recomputed (the division is unguarded
for a zero weight sum; over `ℚ` it yields 0). -/
def oldFallbackEvaluation (r : OldRubric) : OldResult :=
  let scores := dictItems (r.criteria.map (fun c =>
    (c.id, ({ score := some 6, confidence := none, note := some conservMarker } : RawEntry))))
  let weighted : ℚ :=
    (r.criteria.map (fun c => 6 * c.weight)).sum / (r.criteria.map (fun c => c.weight)).sum
  { scores := scores
    overall := { weighted_score := weighted, method := r.overall_method
                 pass_status := passStatusOf r.thresholds weighted }
    short_summary := "Auto summary" }

/-- The un-chunked branch of `_evaluate_with_old_rubric_format` (lines
1154–1244): a successful scorer response is returned **verbatim** —
no clamping, no recomputation of `overall`; only a failed call falls
back. -/
def evalOldFormatUnchunked (r : OldRubric) (resp : Option OldResult) : OldResult :=
  match resp with
  | some result => result
  | none => oldFallbackEvaluation r

/-- The aggregated `scores` dict of `_aggregate_chunk_results_old`
(lines 1380–1411): mean score rounded to one decimal (no clamp — the
flat format has no per-criterion maximum), maximum confidence, combined
chunk-count-prefixed note. -/
def aggEntryOld (scoreMaps : List (List (String × RawEntry))) (cid : String) : Entry :=
  let L := scoreMaps.filterMap (fun m => lastAssoc m cid)
  if L.isEmpty then
    { score := 6, confidence := some 3
      note := some "No scores available from chunks" }
  else
    let scoresFor := L.map (fun d => d.score.getD 0)
    let avg : ℚ := scoresFor.sum / (scoresFor.length : ℚ)
    let maxConf : ℚ := pyMax (L.map (fun d => d.confidence.getD 5))
    let combined := joinSep " | " ((L.map (fun d => d.note.getD "")).filter (fun s => s ≠ ""))
    { score := round1 avg, confidence := some maxConf
      note := some ("Aggregated from " ++ toString L.length ++ " chunks: " ++ combined) }

def aggregateScoresOld (results : List OldResult) : List (String × Entry) :=
  let scoreMaps := results.map (fun res => res.scores)
  (dedupKeys (scoreMaps.flatMap (fun m => m.map Prod.fst))).map
    (fun cid => (cid, aggEntryOld scoreMaps cid))

/-- `_aggregate_chunk_results_old` (lines 1359–1431).  The weighted
overall is recomputed from the aggregated scores; the lookup
`aggregated_scores[c['id']]['score']` (line 1416) is a bare dict index,
so a rubric criterion absent from every chunk raises `KeyError`. -/
def aggregateOldChunkResults (r : OldRubric) (results : List OldResult) :
    Except String OldResult :=
  if results.isEmpty then .ok (oldFallbackEvaluation r)
  else
    let agg := aggregateScoresOld results
    if r.criteria.all (fun c => (lastAssoc agg c.id).isSome) then
      let totalWeight : ℚ := (r.criteria.map (fun c => c.weight)).sum
      let weighted : ℚ :=
        if 0 < totalWeight then
          (r.criteria.map (fun c =>
            (match lastAssoc agg c.id with | some e => e.score | none => 0) * c.weight)).sum
            / totalWeight
        else 6
      .ok { scores := agg.map (fun p => (p.1, p.2.toRaw))
            overall := { weighted_score := round1 weighted, method := r.overall_method
                         pass_status := passStatusOf r.thresholds weighted }
            short_summary := "Evaluated " ++ toString results.length ++
              " transcript chunks with " ++ toString agg.length ++ " criteria" }
    else .error "KeyError"

/- ## Decomposition decision (the dispatch lines of each path) -/

inductive DecompPath
  | single
  | transcriptOnly
  | categoryOnly
  | bothAxes
deriving Repr, DecidableEq

/-- The dispatch of `_evaluate_transcript_chunked` (lines 1557–1560). -/
def pathTranscriptChunked (r : NewRubric) : DecompPath :=
  if 10 < totalCriteria r then .bothAxes else .transcriptOnly

/-- The dispatch of `_evaluate_simple_rubric` (line 1447). -/
def pathSimpleRubric (r : NewRubric) (text : List Char) : DecompPath :=
  if 4000 < text.length then pathTranscriptChunked r else .single

/-- The dispatch of `_evaluate_complex_rubric_chunked` (line 2063). -/
def pathComplexRubricChunked (r : NewRubric) (text : List Char) : DecompPath :=
  if 4000 < text.length then pathTranscriptChunked r else .categoryOnly

/-- The dispatch of `_evaluate_with_new_rubric_format` (lines 1140–1145):
the decomposition path actually taken for a hierarchical rubric. -/
def pathNewRubricFormat (r : NewRubric) (text : List Char) : DecompPath :=
  if 10 < totalCriteria r then pathComplexRubricChunked r text
  else pathSimpleRubric r text

/-- The decomposition precedence exactly as the specification words it
(for comparison with `pathNewRubricFormat`). -/
def claimedPath (criteriaCount textLen : Nat) : DecompPath :=
  if 10 < criteriaCount ∧ 4000 < textLen then .bothAxes
  else if 10 < criteriaCount then .categoryOnly
  else if 4000 < textLen then .transcriptOnly
  else .single

/- ## Well-formedness and result invariants -/

/-- The structural facts `_validate_new_rubric_format` guarantees about
an accepted rubric, as used by the invariant proofs: non-empty category
list, positive maxima with per-category consistency, and globally unique
category and criterion ids. -/
def WFRubric (r : NewRubric) : Prop :=
  r.categories ≠ [] ∧
  (∀ cat ∈ r.categories, 0 < cat.max_points ∧
    cat.max_points = (cat.criteria.map (fun cr => cr.max_points)).sum ∧
    ∀ cr ∈ cat.criteria, 0 < cr.max_points) ∧
  (allCriterionIds r).Nodup ∧
  (r.categories.map (fun cat => cat.category_id)).Nodup

instance (r : NewRubric) : Decidable (WFRubric r) := by
  unfold WFRubric; infer_instance

/-- The EvaluationResult invariant of the specification: category points
within bounds, overall totals recomputed as the category sum, percentage
rounded to one decimal, pass status a pure function of the total. -/
def ResultInv (r : NewRubric) (res : EvalResult) : Prop :=
  (∀ p ∈ res.categories, 0 ≤ p.2.points ∧ p.2.points ≤ p.2.max_points) ∧
  res.overall.total_points = (res.categories.map (fun p => p.2.points)).sum ∧
  res.overall.percentage = round1 (100 * res.overall.total_points / res.overall.max_points) ∧
  res.overall.max_points = (res.categories.map (fun p => p.2.max_points)).sum ∧
  res.overall.pass_status = passStatusOf r.thresholds res.overall.total_points

instance (r : NewRubric) (res : EvalResult) : Decidable (ResultInv r res) := by
  unfold ResultInv; infer_instance

/-- Substring containment, for the fallback-marker contract. -/
def ContainsSub (sub s : String) : Prop := ∃ p q, s = p ++ sub ++ q

/-- Modelled from the spec: rounding half **away from zero**, the rule
the specification names for the criterion clamp (for comparison with the
source's `pyRound`, which rounds half to even). -/
def roundHalfAwayFromZero (q : ℚ) : ℤ :=
  if 0 ≤ q then ⌊q + 1/2⌋ else ⌈q - 1/2⌉

/- ## Concrete instances used by witnesses and counterexamples -/

def rubricOneCat : NewRubric :=
  { categories := [{ category_id := "cat", label := "Cat", weight := 1, max_points := 5,
                     criteria := [{ criterion_id := "a", label := "A", max_points := 5 }] }]
    scale := { min := 0, max := 5 }
    thresholds := { pass := 4, revise := 2 } }

/-- A scorer response with a half-integer criterion score. -/
def rawHalf : RawResult :=
  { scores := [("a", { score := some (5/2), confidence := some 7, note := some "x" })]
    overall := none, category := none, short_summary := none }

/-- A scorer response reporting 999 for a 5-point criterion, with a
fabricated overall block. -/
def raw999 : RawResult :=
  { scores := [("a", { score := some 999, confidence := some 7, note := some "strong" })]
    overall := some { total_points := some 999, max_points := some 5
                      percentage := some 19980, pass_status := some "pass" }
    category := none, short_summary := some "sum" }

/-- A scorer response containing a criterion id absent from the rubric. -/
def rawWithUnknown : RawResult :=
  { scores := [("a", { score := some 3, confidence := some 6, note := some "fine" }),
               ("zz", { score := some 4, confidence := some 2, note := some "ghost" })]
    overall := none, category := none, short_summary := none }

/-- `rawWithUnknown` with the unknown criterion removed. -/
def rawWithoutUnknown : RawResult :=
  { scores := [("a", { score := some 3, confidence := some 6, note := some "fine" })]
    overall := none, category := none, short_summary := none }

def mkCrit1 (cid : String) : Criterion := { criterion_id := cid, label := cid, max_points := 1 }

/-- 11 criteria in two categories: takes the category-only path on a
short transcript. -/
def rubric11 : NewRubric :=
  { categories :=
      [{ category_id := "catA", label := "A", weight := 1/2, max_points := 6,
         criteria := [mkCrit1 "a1", mkCrit1 "a2", mkCrit1 "a3",
                      mkCrit1 "a4", mkCrit1 "a5", mkCrit1 "a6"] },
       { category_id := "catB", label := "B", weight := 1/2, max_points := 5,
         criteria := [mkCrit1 "b1", mkCrit1 "b2", mkCrit1 "b3",
                      mkCrit1 "b4", mkCrit1 "b5"] }]
    scale := { min := 0, max := 11 }
    thresholds := { pass := 8, revise := 5 } }

def textShort : List Char := ['h', 'i']

/-- Category-path scorer whose reported `category` block for `catA`
claims 999 of 6 points. -/
def scorerBogusCategory : Scorer :=
  { single := none, chunk := fun _ => none, catChunk := fun _ _ => none,
    cat := fun cid =>
      if cid = "catA" then
        some { scores := [("a1", { score := some 1, confidence := some 5, note := some "ok" })]
               category := some { points := 999, max_points := 6, percentage := 50 } }
      else
        some { scores := [("b1", { score := some 1, confidence := some 5, note := some "ok" })]
               category := some { points := 3, max_points := 5, percentage := 60 } } }

def mkCrit7 (cid : String) : Criterion := { criterion_id := cid, label := cid, max_points := 7 }

def mkCrit6 (cid : String) : Criterion := { criterion_id := cid, label := cid, max_points := 6 }

/-- 15 criteria (ten 7-point, five 6-point), total max 100: the rubric of
the all-calls-fail scenario. -/
def rubric15 : NewRubric :=
  { categories :=
      [{ category_id := "c1", label := "C1", weight := 1/5, max_points := 21,
         criteria := [mkCrit7 "p1", mkCrit7 "p2", mkCrit7 "p3"] },
       { category_id := "c2", label := "C2", weight := 1/5, max_points := 21,
         criteria := [mkCrit7 "p4", mkCrit7 "p5", mkCrit7 "p6"] },
       { category_id := "c3", label := "C3", weight := 1/5, max_points := 21,
         criteria := [mkCrit7 "p7", mkCrit7 "p8", mkCrit7 "p9"] },
       { category_id := "c4", label := "C4", weight := 1/5, max_points := 19,
         criteria := [mkCrit7 "p10", mkCrit6 "p11", mkCrit6 "p12"] },
       { category_id := "c5", label := "C5", weight := 1/5, max_points := 18,
         criteria := [mkCrit6 "p13", mkCrit6 "p14", mkCrit6 "p15"] }]
    scale := { min := 0, max := 100 }
    thresholds := { pass := 70, revise := 50 } }

/-- A 4001-character transcript: longer than the 4000-character
decomposition threshold, still a single 8000-character chunk. -/
def textLong : List Char := List.replicate 4001 'a'

/-- A valid-per-the-validator rubric whose total category max (10)
differs from `scale.max` (100). -/
def rubricScaleMismatch : NewRubric :=
  { categories := [{ category_id := "content", label := "Content", weight := 1, max_points := 10,
                     criteria := [{ criterion_id := "clarity", label := "Clarity", max_points := 5 },
                                  { criterion_id := "depth", label := "Depth", max_points := 5 }] }]
    scale := { min := 0, max := 100 }
    thresholds := { pass := 7, revise := 5 } }

/-- Eleven spaces: an all-whitespace text longer than a 10-char chunk. -/
def wsText : List Char := List.replicate 11 ' '

/-- Chunk results contributing scores 2 and 3 to criterion `a`. -/
def chunkResA : EvalResult :=
  { scores := [("a", { score := 2, confidence := some 6, note := some "n1" })]
    categories := []
    overall := { total_points := 0, max_points := 0, percentage := 0, pass_status := "fail" }
    category := none, short_summary := none }

def chunkResB : EvalResult :=
  { scores := [("a", { score := 3, confidence := some 4, note := some "n2" })]
    categories := []
    overall := { total_points := 0, max_points := 0, percentage := 0, pass_status := "fail" }
    category := none, short_summary := none }

def oldRubric2 : OldRubric :=
  { criteria := [{ id := "a", label := "A", desc := "da", weight := 1/2 },
                 { id := "b", label := "B", desc := "db", weight := 1/2 }]
    scale := { min := 1, max := 10 }
    overall_method := "weighted_mean"
    thresholds := { pass := 13/2, revise := 5 } }

/-- A flat-format scorer response asserting `pass`. -/
def oldRespPass : OldResult :=
  { scores := [("a", { score := some 9, confidence := some 8, note := some "good" }),
               ("b", { score := some 8, confidence := some 7, note := some "ok" })]
    overall := { weighted_score := 17/2, method := "weighted_mean", pass_status := "pass" }
    short_summary := "s" }

/-- The same per-criterion scores with a contradictory overall block. -/
def oldRespFail : OldResult :=
  { scores := [("a", { score := some 9, confidence := some 8, note := some "good" }),
               ("b", { score := some 8, confidence := some 7, note := some "ok" })]
    overall := { weighted_score := 0, method := "weighted_mean", pass_status := "fail" }
    short_summary := "s" }

/-- A scorer whose single-call response is `raw999`. -/
def scorerSingle999 : Scorer :=
  { single := some raw999, chunk := fun _ => none, catChunk := fun _ _ => none,
    cat := fun _ => none }

/-- A scorer response with an `overall` block asserting a passing total. -/
def rawOv1 : RawResult :=
  { scores := [("a", { score := some 3, confidence := some 6, note := some "fine" })]
    overall := some { total_points := some 5, max_points := some 5
                      percentage := some 100, pass_status := some "pass" }
    category := none, short_summary := none }

/-- The same per-criterion scores with a contradictory `overall` block. -/
def rawOv2 : RawResult :=
  { scores := [("a", { score := some 3, confidence := some 6, note := some "fine" })]
    overall := some { total_points := some 0, max_points := some 5
                      percentage := some 0, pass_status := some "fail" }
    category := none, short_summary := none }

/- # Theorems -/

/- ## Numeric helper lemmas -/

theorem pyRound_intCast (n : ℤ) : pyRound (n : ℚ) = n := by
  simp [pyRound]

theorem pyInt_intCast (n : ℤ) : pyInt (n : ℚ) = n := by
  unfold pyInt
  by_cases h : (0 : ℚ) ≤ (n : ℚ)
  · simp [h]
  · rw [if_neg h, ← Int.cast_neg, Int.floor_intCast]
    omega

theorem pyInt_of_nonneg {q : ℚ} (h : 0 ≤ q) : pyInt q = ⌊q⌋ := by
  simp [pyInt, h]

theorem pyInt_nonneg {q : ℚ} (h : 0 ≤ q) : 0 ≤ pyInt q := by
  rw [pyInt_of_nonneg h]
  exact Int.floor_nonneg.mpr h

theorem pyInt_le_of_le {q : ℚ} {m : ℤ} (h0 : 0 ≤ q) (h : q ≤ (m : ℚ)) : pyInt q ≤ m := by
  rw [pyInt_of_nonneg h0]
  have := Int.floor_le_floor h
  simpa using this

theorem threeFifth_nonneg {m : ℤ} (h : 0 ≤ m) : 0 ≤ pyInt ((m : ℚ) * (3/5)) := by
  apply pyInt_nonneg
  have : (0 : ℚ) ≤ (m : ℚ) := by exact_mod_cast h
  positivity

theorem threeFifth_le {m : ℤ} (h : 0 ≤ m) : pyInt ((m : ℚ) * (3/5)) ≤ m := by
  have hm : (0 : ℚ) ≤ (m : ℚ) := by exact_mod_cast h
  apply pyInt_le_of_le (by positivity)
  nlinarith

/- ## Association-list and dedup lemmas -/

theorem lastAssoc_shift {α : Type} (k : String) (l : List (String × α)) (acc : Option α) :
    l.foldl (fun a p => if p.1 = k then some p.2 else a) acc =
      match lastAssoc l k with
      | some v => some v
      | none => acc := by
  induction l generalizing acc with
  | nil => rfl
  | cons p rest ih =>
    simp only [lastAssoc, List.foldl_cons] at *
    rw [ih, ih (if p.1 = k then some p.2 else none)]
    cases h : rest.foldl (fun a p => if p.1 = k then some p.2 else a) none with
    | some v => simp [lastAssoc, h]
    | none =>
      simp only [lastAssoc, h]
      by_cases hk : p.1 = k <;> simp [hk]

theorem lastAssoc_cons {α : Type} (p : String × α) (rest : List (String × α)) (k : String) :
    lastAssoc (p :: rest) k =
      match lastAssoc rest k with
      | some v => some v
      | none => if p.1 = k then some p.2 else none := by
  show List.foldl _ (if p.1 = k then some p.2 else none) rest = _
  exact lastAssoc_shift k rest _

theorem lastAssoc_eq_none_iff {α : Type} {l : List (String × α)} {k : String} :
    lastAssoc l k = none ↔ k ∉ l.map Prod.fst := by
  induction l with
  | nil => simp [lastAssoc]
  | cons p rest ih =>
    rw [lastAssoc_cons]
    cases h : lastAssoc rest k with
    | some v =>
      have hk : k ∈ rest.map Prod.fst := by
        by_contra hk
        rw [← ih] at hk
        rw [h] at hk
        exact Option.some_ne_none _ hk
      simp [List.mem_cons, hk]
    | none =>
      have hk := ih.mp h
      by_cases hpk : p.1 = k
      · subst hpk
        simp
      · simp only [if_neg hpk, List.map_cons, List.mem_cons]
        constructor
        · intro _ hc
          rcases hc with hc | hc
          · exact hpk hc.symm
          · exact hk hc
        · intro _
          trivial

theorem lastAssoc_mem {α : Type} {l : List (String × α)} {k : String} {v : α}
    (h : lastAssoc l k = some v) : (k, v) ∈ l := by
  induction l with
  | nil => simp [lastAssoc] at h
  | cons p rest ih =>
    rw [lastAssoc_cons] at h
    cases hr : lastAssoc rest k with
    | some w =>
      rw [hr] at h
      cases h
      exact List.mem_cons_of_mem _ (ih hr)
    | none =>
      rw [hr] at h
      by_cases hk : p.1 = k
      · rw [if_pos hk] at h
        cases h
        have hpe : (k, p.2) = p := by rw [← hk]
        rw [hpe]
        exact List.mem_cons_self _ _
      · rw [if_neg hk] at h
        exact absurd h (Option.noConfusion)

theorem lastAssoc_of_nodup {α : Type} {l : List (String × α)}
    (hnd : (l.map Prod.fst).Nodup) {k : String} {v : α} (h : (k, v) ∈ l) :
    lastAssoc l k = some v := by
  induction l with
  | nil => simp at h
  | cons p rest ih =>
    simp only [List.map_cons, List.nodup_cons] at hnd
    rw [lastAssoc_cons]
    rcases List.mem_cons.mp h with heq | hmem
    · have hk : p.1 = k := by rw [← heq]
      have hnone : lastAssoc rest k = none := by
        apply lastAssoc_eq_none_iff.mpr
        rw [← hk]
        exact hnd.1
      rw [hnone]
      simp only [if_pos hk]
      rw [← heq]
    · rw [ih hnd.2 hmem]

theorem dedupKeysGo_succ (n : Nat) : ∀ (l : List String), l.length ≤ n →
    dedupKeysGo (n + 1) l = dedupKeysGo n l := by
  induction n with
  | zero =>
    intro l hl
    have hnil : l = [] := List.length_eq_zero.mp (Nat.le_zero.mp hl)
    subst hnil
    rfl
  | succ n ih =>
    intro l hl
    cases l with
    | nil => rfl
    | cons k rest =>
      have hlen : rest.length ≤ n := by
        simp only [List.length_cons] at hl
        omega
      have hfl : (rest.filter (fun x => x ≠ k)).length ≤ n :=
        le_trans (List.length_filter_le _ _) hlen
      show k :: dedupKeysGo (n + 1) (rest.filter (fun x => x ≠ k)) =
        k :: dedupKeysGo n (rest.filter (fun x => x ≠ k))
      rw [ih _ hfl]

theorem dedupKeysGo_fuel : ∀ (n : Nat) (l : List String), l.length ≤ n →
    dedupKeysGo n l = dedupKeys l := by
  intro n
  induction n with
  | zero =>
    intro l hl
    have hnil : l = [] := List.length_eq_zero.mp (Nat.le_zero.mp hl)
    subst hnil
    rfl
  | succ n ih =>
    intro l hl
    by_cases h : l.length ≤ n
    · rw [dedupKeysGo_succ n l h, ih l h]
    · have hlen : l.length = n + 1 := by omega
      show dedupKeysGo (n + 1) l = dedupKeysGo l.length l
      rw [hlen]

theorem dedupKeys_cons (k : String) (rest : List String) :
    dedupKeys (k :: rest) = k :: dedupKeys (rest.filter (fun x => x ≠ k)) := by
  show k :: dedupKeysGo rest.length (rest.filter (fun x => x ≠ k)) =
    k :: dedupKeys (rest.filter (fun x => x ≠ k))
  rw [dedupKeysGo_fuel rest.length _ (List.length_filter_le _ _)]

theorem dedupKeys_nil : dedupKeys [] = [] := rfl

theorem mem_dedupKeys {k : String} : ∀ {l : List String}, k ∈ dedupKeys l ↔ k ∈ l := by
  intro l
  suffices h : ∀ (n : Nat) (l : List String), l.length ≤ n → (k ∈ dedupKeys l ↔ k ∈ l) from
    h l.length l le_rfl
  intro n
  induction n with
  | zero =>
    intro l hl
    have hnil : l = [] := List.length_eq_zero.mp (Nat.le_zero.mp hl)
    subst hnil
    simp [dedupKeys_nil]
  | succ n ih =>
    intro l hl
    cases l with
    | nil => simp [dedupKeys_nil]
    | cons x rest =>
      rw [dedupKeys_cons]
      have hlen : rest.length ≤ n := by
        simp only [List.length_cons] at hl
        omega
      have ihx := ih (rest.filter (fun y => y ≠ x))
        (le_trans (List.length_filter_le _ _) hlen)
      by_cases hk : k = x
      · subst hk
        simp
      · simp only [List.mem_cons, ihx, List.mem_filter]
        constructor
        · rintro (h | ⟨h, _⟩)
          · exact absurd h hk
          · exact Or.inr h
        · rintro (h | h)
          · exact absurd h hk
          · exact Or.inr ⟨h, by simpa using hk⟩

theorem nodup_dedupKeys : ∀ (l : List String), (dedupKeys l).Nodup := by
  suffices h : ∀ (n : Nat) (l : List String), l.length ≤ n → (dedupKeys l).Nodup from
    fun l => h l.length l le_rfl
  intro n
  induction n with
  | zero =>
    intro l hl
    have hnil : l = [] := List.length_eq_zero.mp (Nat.le_zero.mp hl)
    subst hnil
    simp [dedupKeys_nil]
  | succ n ih =>
    intro l hl
    cases l with
    | nil => simp [dedupKeys_nil]
    | cons x rest =>
      rw [dedupKeys_cons]
      have hlen : rest.length ≤ n := by
        simp only [List.length_cons] at hl
        omega
      refine List.nodup_cons.mpr
        ⟨?_, ih _ (le_trans (List.length_filter_le _ _) hlen)⟩
      rw [mem_dedupKeys]
      simp

theorem dedupKeys_eq_self : ∀ {l : List String}, l.Nodup → dedupKeys l = l := by
  intro l hnd
  suffices h : ∀ (n : Nat) (l : List String), l.length ≤ n → l.Nodup → dedupKeys l = l from
    h l.length l le_rfl hnd
  intro n
  induction n with
  | zero =>
    intro l hl _
    have hnil : l = [] := List.length_eq_zero.mp (Nat.le_zero.mp hl)
    subst hnil
    rfl
  | succ n ih =>
    intro l hl hnd2
    cases l with
    | nil => rfl
    | cons x rest =>
      rw [List.nodup_cons] at hnd2
      rw [dedupKeys_cons]
      have hf : rest.filter (fun y => y ≠ x) = rest := by
        apply List.filter_eq_self.mpr
        intro a ha
        simp only [ne_eq, decide_eq_true_eq]
        intro hax
        exact hnd2.1 (hax ▸ ha)
      rw [hf]
      have hlen : rest.length ≤ n := by
        simp only [List.length_cons] at hl
        omega
      rw [ih rest hlen hnd2.2]

theorem filterMap_congr {α β : Type} {l : List α} {f g : α → Option β}
    (h : ∀ a ∈ l, f a = g a) : l.filterMap f = l.filterMap g := by
  induction l with
  | nil => rfl
  | cons a rest ih =>
    simp only [List.filterMap_cons]
    rw [h a (List.mem_cons_self a rest), ih (fun b hb => h b (List.mem_cons_of_mem a hb))]

theorem mem_dictKeys {α : Type} {l : List (String × α)} {k : String} :
    k ∈ dictKeys l ↔ k ∈ l.map Prod.fst := mem_dedupKeys

theorem dictItems_self {α : Type} : ∀ {l : List (String × α)},
    (l.map Prod.fst).Nodup → dictItems l = l := by
  intro l h
  unfold dictItems dictKeys
  rw [dedupKeys_eq_self h]
  induction l with
  | nil => rfl
  | cons p rest ih =>
    simp only [List.map_cons, List.nodup_cons] at h
    simp only [List.map_cons, List.filterMap_cons]
    have hl : lastAssoc (p :: rest) p.1 = some p.2 := by
      rw [lastAssoc_cons, lastAssoc_eq_none_iff.mpr h.1]
      simp
    have hrest : (rest.map Prod.fst).filterMap
          (fun k => (lastAssoc (p :: rest) k).map (fun v => (k, v)))
        = (rest.map Prod.fst).filterMap
          (fun k => (lastAssoc rest k).map (fun v => (k, v))) := by
      apply filterMap_congr
      intro k hk
      have hne : p.1 ≠ k := by
        intro hc
        exact h.1 (hc ▸ hk)
      rw [lastAssoc_cons]
      cases hr : lastAssoc rest k with
      | some v => rfl
      | none => simp [hne]
    rw [hl, hrest, ih h.2]
    rfl

theorem mem_dictItems_lastAssoc {α : Type} {l : List (String × α)} {k : String} {v : α}
    (h : (k, v) ∈ dictItems l) : lastAssoc l k = some v := by
  unfold dictItems at h
  rcases List.mem_filterMap.mp h with ⟨k0, _, heq⟩
  cases hla : lastAssoc l k0 with
  | none => rw [hla] at heq; cases heq
  | some w =>
    rw [hla] at heq
    simp only [Option.map_some'] at heq
    cases heq
    exact hla

theorem mem_dictItems_mem {α : Type} {l : List (String × α)} {k : String} {v : α}
    (h : (k, v) ∈ dictItems l) : (k, v) ∈ l :=
  lastAssoc_mem (mem_dictItems_lastAssoc h)

theorem map_fst_filterMap_keys {α : Type} (l : List (String × α)) :
    ∀ (ks : List String), (∀ k ∈ ks, k ∈ l.map Prod.fst) →
    (ks.filterMap (fun k => (lastAssoc l k).map (fun v => (k, v)))).map Prod.fst = ks := by
  intro ks
  induction ks with
  | nil => intro _; rfl
  | cons k rest ih =>
    intro h
    have hk : k ∈ l.map Prod.fst := h k (List.mem_cons_self _ _)
    cases hla : lastAssoc l k with
    | none => exact absurd (lastAssoc_eq_none_iff.mp hla) (by simpa using hk)
    | some v =>
      simp only [List.filterMap_cons, hla, Option.map_some', List.map_cons]
      rw [ih (fun b hb => h b (List.mem_cons_of_mem _ hb))]

theorem map_fst_dictItems {α : Type} (l : List (String × α)) :
    (dictItems l).map Prod.fst = dictKeys l := by
  unfold dictItems
  exact map_fst_filterMap_keys l _ (fun k hk => mem_dictKeys.mp hk)

theorem nodup_fst_dictItems {α : Type} (l : List (String × α)) :
    ((dictItems l).map Prod.fst).Nodup := by
  rw [map_fst_dictItems]
  exact nodup_dedupKeys _

theorem lastAssoc_map_keyed {α : Type} {f : String → α} {ks : List String}
    (hnd : ks.Nodup) {k : String} (hk : k ∈ ks) :
    lastAssoc (ks.map (fun c => (c, f c))) k = some (f k) := by
  apply lastAssoc_of_nodup
  · simp only [List.map_map, Function.comp_def]
    simpa using hnd
  · exact List.mem_map.mpr ⟨k, hk, rfl⟩

/- ## Integer-valued sums -/

theorem intValued_sum {l : List ℚ} (h : ∀ x ∈ l, ∃ n : ℤ, x = (n : ℚ)) :
    ∃ n : ℤ, l.sum = (n : ℚ) := by
  induction l with
  | nil => exact ⟨0, by simp⟩
  | cons x rest ih =>
    obtain ⟨m, hm⟩ := h x (List.mem_cons_self _ _)
    obtain ⟨n, hn⟩ := ih (fun y hy => h y (List.mem_cons_of_mem _ hy))
    exact ⟨m + n, by simp [hm, hn]⟩

theorem pyInt_cast_of_intValued {q : ℚ} (h : ∃ n : ℤ, q = (n : ℚ)) :
    (pyInt q : ℚ) = q := by
  obtain ⟨n, rfl⟩ := h
  rw [pyInt_intCast]

/- ## Rubric lookups under well-formedness -/

theorem map_fst_critMaxPairs (r : NewRubric) :
    ((r.categories.flatMap
      (fun cat => cat.criteria.map (fun cr => (cr.criterion_id, cr.max_points)))).map Prod.fst)
      = allCriterionIds r := by
  simp [allCriterionIds, List.map_flatMap, List.map_map, Function.comp_def]

theorem map_fst_critCatPairs (r : NewRubric) :
    ((r.categories.flatMap
      (fun cat => cat.criteria.map (fun cr => (cr.criterion_id, cat.category_id)))).map Prod.fst)
      = allCriterionIds r := by
  simp [allCriterionIds, List.map_flatMap, List.map_map, Function.comp_def]

theorem critMaxD_of_mem {r : NewRubric} (hnd : (allCriterionIds r).Nodup)
    {cat : Category} {cr : Criterion} (hcat : cat ∈ r.categories) (hcr : cr ∈ cat.criteria) :
    critMaxD r cr.criterion_id = cr.max_points := by
  unfold critMaxD
  rw [lastAssoc_of_nodup (by rw [map_fst_critMaxPairs]; exact hnd)
    (List.mem_flatMap.mpr ⟨cat, hcat, List.mem_map.mpr ⟨cr, hcr, rfl⟩⟩)]
  rfl

theorem critToCat_of_mem {r : NewRubric} (hnd : (allCriterionIds r).Nodup)
    {cat : Category} {cr : Criterion} (hcat : cat ∈ r.categories) (hcr : cr ∈ cat.criteria) :
    critToCat r cr.criterion_id = some cat.category_id := by
  unfold critToCat
  exact lastAssoc_of_nodup (by rw [map_fst_critCatPairs]; exact hnd)
    (List.mem_flatMap.mpr ⟨cat, hcat, List.mem_map.mpr ⟨cr, hcr, rfl⟩⟩)

theorem critMaxD_of_not_mem {r : NewRubric} {cid : String} (h : cid ∉ allCriterionIds r) :
    critMaxD r cid = 0 := by
  unfold critMaxD
  rw [lastAssoc_eq_none_iff.mpr (by rw [map_fst_critMaxPairs]; exact h)]
  rfl

theorem critToCat_of_not_mem {r : NewRubric} {cid : String} (h : cid ∉ allCriterionIds r) :
    critToCat r cid = none := by
  unfold critToCat
  exact lastAssoc_eq_none_iff.mpr (by rw [map_fst_critCatPairs]; exact h)

theorem critMaxD_nonneg {r : NewRubric}
    (hpos : ∀ cat ∈ r.categories, ∀ cr ∈ cat.criteria, 0 < cr.max_points) (cid : String) :
    0 ≤ critMaxD r cid := by
  unfold critMaxD
  cases hla : lastAssoc (r.categories.flatMap
      (fun cat => cat.criteria.map (fun cr => (cr.criterion_id, cr.max_points)))) cid with
  | none => simp
  | some v =>
    have hmem := lastAssoc_mem hla
    rcases List.mem_flatMap.mp hmem with ⟨cat, hcat, hv⟩
    rcases List.mem_map.mp hv with ⟨cr, hcr, heq⟩
    have := hpos cat hcat cr hcr
    have hveq : v = cr.max_points := congrArg Prod.snd heq |>.symm
    simp [hveq]
    omega

theorem find?_criterion_of_nodup {criteria : List Criterion}
    (hnd : (criteria.map (fun cr => cr.criterion_id)).Nodup) {cr : Criterion}
    (hcr : cr ∈ criteria) :
    criteria.find? (fun x => x.criterion_id == cr.criterion_id) = some cr := by
  induction criteria with
  | nil => simp at hcr
  | cons x rest ih =>
    simp only [List.map_cons, List.nodup_cons] at hnd
    rcases List.mem_cons.mp hcr with rfl | hmem
    · simp [List.find?_cons]
    · have hne : x.criterion_id ≠ cr.criterion_id := by
        intro hc
        exact hnd.1 (hc ▸ List.mem_map.mpr ⟨cr, hmem, rfl⟩)
      rw [List.find?_cons, show (x.criterion_id == cr.criterion_id) = false from by simp [hne]]
      exact ih hnd.2 hmem

theorem critMaxScanGo_nonneg {cid : String} :
    ∀ (cats : List Category) (v : ℤ), 0 ≤ v →
      (∀ c ∈ cats, ∀ cr ∈ c.criteria, 0 < cr.max_points) →
      0 ≤ critMaxScanGo cid cats v := by
  intro cats
  induction cats with
  | nil =>
    intro v hv _
    exact hv
  | cons c rest ih =>
    intro v hv hpos
    rw [critMaxScanGo]
    cases hf : c.criteria.find? (fun x => x.criterion_id == cid) with
    | none =>
      simp only [hf]
      split
      · exact hv
      · exact ih v hv (fun c2 h2 => hpos c2 (List.mem_cons_of_mem _ h2))
    | some cr =>
      have hpos2 : 0 < cr.max_points :=
        hpos c (List.mem_cons_self _ _) cr (List.mem_of_find?_eq_some hf)
      simp only [hf]
      split
      · omega
      · exact ih _ (le_of_lt hpos2) (fun c2 h2 => hpos c2 (List.mem_cons_of_mem _ h2))

theorem critMaxScan_nonneg {r : NewRubric}
    (hpos : ∀ c ∈ r.categories, ∀ cr ∈ c.criteria, 0 < cr.max_points) (cid : String) :
    0 ≤ critMaxScan r cid :=
  critMaxScanGo_nonneg r.categories 0 le_rfl hpos

theorem critMaxScanGo_spec {cid : String} :
    ∀ (cats : List Category),
      ((cats.flatMap (fun c => c.criteria.map (fun cr => cr.criterion_id))).Nodup) →
      (∀ c ∈ cats, ∀ cr ∈ c.criteria, 0 < cr.max_points) →
      ∀ {cat : Category} {cr : Criterion}, cat ∈ cats → cr ∈ cat.criteria →
        cr.criterion_id = cid → critMaxScanGo cid cats 0 = cr.max_points := by
  intro cats
  induction cats with
  | nil =>
    intro _ _ cat cr hcat _ _
    simp at hcat
  | cons c rest ih =>
    intro hnd hpos cat cr hcat hcr hid
    have hnd2 : (c.criteria.map (fun x => x.criterion_id)).Nodup ∧
        ((rest.flatMap (fun x => x.criteria.map (fun y => y.criterion_id))).Nodup) ∧
        ∀ a ∈ c.criteria.map (fun x => x.criterion_id),
          a ∉ rest.flatMap (fun x => x.criteria.map (fun y => y.criterion_id)) := by
      rw [List.flatMap_cons, List.nodup_append] at hnd
      exact ⟨hnd.1, hnd.2.1, fun a ha hb => hnd.2.2 ha hb⟩
    rw [critMaxScanGo]
    rcases List.mem_cons.mp hcat with rfl | hmem
    · have hfind : cat.criteria.find? (fun x => x.criterion_id == cid) = some cr := by
        rw [← hid]
        exact find?_criterion_of_nodup hnd2.1 hcr
      have hne : cr.max_points ≠ 0 :=
        ne_of_gt (hpos cat (List.mem_cons_self _ _) cr hcr)
      simp only [hfind]
      rw [if_pos hne]
    · have hin : cid ∈ rest.flatMap (fun x => x.criteria.map (fun y => y.criterion_id)) :=
        List.mem_flatMap.mpr ⟨cat, hmem, List.mem_map.mpr ⟨cr, hcr, hid⟩⟩
      have hfind : c.criteria.find? (fun x => x.criterion_id == cid) = none := by
        rw [List.find?_eq_none]
        intro x hx
        simp only [beq_iff_eq]
        intro hc
        exact hnd2.2.2 x.criterion_id (List.mem_map.mpr ⟨x, hx, rfl⟩) (hc ▸ hin)
      simp only [hfind]
      rw [if_neg (by simp)]
      exact ih hnd2.2.1 (fun c2 h2 => hpos c2 (List.mem_cons_of_mem _ h2)) hmem hcr hid

theorem critMaxScan_of_mem {r : NewRubric} (hnd : (allCriterionIds r).Nodup)
    (hpos : ∀ c ∈ r.categories, ∀ cr ∈ c.criteria, 0 < cr.max_points)
    {cat : Category} {cr : Criterion} (hcat : cat ∈ r.categories) (hcr : cr ∈ cat.criteria) :
    critMaxScan r cr.criterion_id = cr.max_points :=
  critMaxScanGo_spec r.categories hnd hpos hcat hcr rfl

/- ## Normalizer lemmas -/

theorem catMaxItems_eq {r : NewRubric}
    (hnodcat : (r.categories.map (fun cat => cat.category_id)).Nodup) :
    catMaxItems r = r.categories.map (fun cat => (cat.category_id, cat.max_points)) := by
  unfold catMaxItems
  apply dictItems_self
  simpa [List.map_map, Function.comp_def] using hnodcat

theorem normCategories_mem {r : NewRubric}
    (hnodcat : (r.categories.map (fun cat => cat.category_id)).Nodup)
    (scores : List (String × Entry)) {p : String × CatStats}
    (hp : p ∈ normCategories r scores) :
    ∃ cat ∈ r.categories, p.1 = cat.category_id ∧
      p.2.points = ((max 0 (min (pyInt (catPointsAcc r scores cat.category_id))
        (pyInt ((cat.max_points : ℤ) : ℚ))) : ℤ) : ℚ) ∧
      p.2.max_points = ((cat.max_points : ℤ) : ℚ) := by
  unfold normCategories at hp
  rw [catMaxItems_eq hnodcat, List.map_map] at hp
  rcases List.mem_map.mp hp with ⟨cat, hcat, heq⟩
  refine ⟨cat, hcat, ?_, ?_, ?_⟩ <;> rw [← heq] <;> exact rfl

theorem normCategories_bounds (r : NewRubric) (hw : WFRubric r)
    (scores : List (String × Entry)) :
    ∀ p ∈ normCategories r scores, 0 ≤ p.2.points ∧ p.2.points ≤ p.2.max_points := by
  obtain ⟨_, hcats, _, hnodcat⟩ := hw
  intro p hp
  obtain ⟨cat, hcat, _, hpts, hmax⟩ := normCategories_mem hnodcat scores hp
  have hm : 0 < cat.max_points := (hcats cat hcat).1
  rw [hpts, hmax, pyInt_intCast]
  constructor
  · exact_mod_cast le_max_left 0 _
  · exact_mod_cast by omega

theorem normCategories_points_intValued (r : NewRubric)
    (hnodcat : (r.categories.map (fun cat => cat.category_id)).Nodup)
    (scores : List (String × Entry)) :
    ∀ p ∈ normCategories r scores,
      (∃ n : ℤ, p.2.points = (n : ℚ)) ∧ (∃ n : ℤ, p.2.max_points = (n : ℚ)) := by
  intro p hp
  obtain ⟨cat, _, _, hpts, hmax⟩ := normCategories_mem hnodcat scores hp
  exact ⟨⟨_, hpts⟩, ⟨_, hmax⟩⟩

theorem normCategories_maxsum_pos (r : NewRubric) (hw : WFRubric r)
    (scores : List (String × Entry)) :
    0 < ((normCategories r scores).map (fun p => p.2.max_points)).sum := by
  obtain ⟨hne, hcats, _, hnodcat⟩ := hw
  apply List.sum_pos
  · intro x hx
    rcases List.mem_map.mp hx with ⟨p, hp, heq⟩
    obtain ⟨cat, hcat, _, _, hmax⟩ := normCategories_mem hnodcat scores hp
    rw [← heq, hmax]
    exact_mod_cast (hcats cat hcat).1
  · unfold normCategories
    rw [catMaxItems_eq hnodcat]
    simp only [ne_eq, List.map_eq_nil_iff, List.map_map]
    intro hc
    exact hne hc

theorem normalize_inv (r : NewRubric) (hw : WFRubric r) (res : RawResult) :
    ResultInv r (normalizeNewFormatResult r res) := by
  have hnodcat := hw.2.2.2
  set scores := normScores r res.scores with hscores
  set cats := normCategories r scores with hcats
  have hint := normCategories_points_intValued r hnodcat scores
  have htot : ∃ n : ℤ, (cats.map (fun p => p.2.points)).sum = (n : ℚ) := by
    apply intValued_sum
    intro x hx
    rcases List.mem_map.mp hx with ⟨p, hp, heq⟩
    exact heq ▸ (hint p hp).1
  have hmaxv : ∃ n : ℤ, (cats.map (fun p => p.2.max_points)).sum = (n : ℚ) := by
    apply intValued_sum
    intro x hx
    rcases List.mem_map.mp hx with ⟨p, hp, heq⟩
    exact heq ▸ (hint p hp).2
  have hmaxpos : 0 < (cats.map (fun p => p.2.max_points)).sum :=
    normCategories_maxsum_pos r hw scores
  show ResultInv r
    { scores := scores, categories := cats, overall := normOverall r cats
      category := res.category, short_summary := res.short_summary }
  unfold ResultInv normOverall
  refine ⟨normCategories_bounds r hw scores, ?_, ?_, ?_, ?_⟩
  · exact pyInt_cast_of_intValued htot
  · simp only
    rw [pyInt_cast_of_intValued htot, pyInt_cast_of_intValued hmaxv, if_pos hmaxpos]
    congr 1
    rw [div_mul_eq_mul_div, mul_comm]
  · exact pyInt_cast_of_intValued hmaxv
  · simp only
    rw [pyInt_cast_of_intValued htot]

/- ## Invariant lemmas for the other result builders -/

theorem div_mul_100 (t m : ℚ) : t / m * 100 = 100 * t / m := by
  rw [div_mul_eq_mul_div, mul_comm]

theorem clamp_bounds_q {x m : ℚ} (hm : 0 ≤ m) :
    0 ≤ max 0 (min x m) ∧ max 0 (min x m) ≤ m :=
  ⟨le_max_left 0 _, max_le hm (min_le_right x m)⟩

theorem resultInv_congr {r : NewRubric} {res1 res2 : EvalResult}
    (hc : res1.categories = res2.categories) (ho : res1.overall = res2.overall)
    (h : ResultInv r res1) : ResultInv r res2 := by
  unfold ResultInv at *
  rw [← hc, ← ho]
  exact h

theorem dictItems_ne_nil {α : Type} {l : List (String × α)} (h : l ≠ []) :
    dictItems l ≠ [] := by
  have hlen := map_fst_dictItems l
  intro hc
  rw [hc] at hlen
  cases l with
  | nil => exact h rfl
  | cons p rest =>
    unfold dictKeys at hlen
    rw [List.map_cons, dedupKeys] at hlen
    exact List.noConfusion hlen

theorem overallUnguarded_parts (th : Thresholds) (cats : List (String × CatStats)) :
    (overallUnguarded th cats).total_points = (cats.map (fun p => p.2.points)).sum ∧
    (overallUnguarded th cats).percentage =
      round1 (100 * (overallUnguarded th cats).total_points /
        (overallUnguarded th cats).max_points) ∧
    (overallUnguarded th cats).max_points = (cats.map (fun p => p.2.max_points)).sum ∧
    (overallUnguarded th cats).pass_status =
      passStatusOf th (overallUnguarded th cats).total_points :=
  ⟨rfl, congrArg round1 (div_mul_100 _ _), rfl, rfl⟩

theorem overallGuarded_parts (th : Thresholds) (cats : List (String × CatStats))
    (h : 0 < (cats.map (fun p => p.2.max_points)).sum) :
    (overallGuarded th cats).total_points = (cats.map (fun p => p.2.points)).sum ∧
    (overallGuarded th cats).percentage =
      round1 (100 * (overallGuarded th cats).total_points /
        (overallGuarded th cats).max_points) ∧
    (overallGuarded th cats).max_points = (cats.map (fun p => p.2.max_points)).sum ∧
    (overallGuarded th cats).pass_status =
      passStatusOf th (overallGuarded th cats).total_points := by
  refine ⟨rfl, ?_, rfl, rfl⟩
  have heq : (if 0 < (cats.map (fun p => p.2.max_points)).sum then
        ((cats.map (fun p => p.2.points)).sum / (cats.map (fun p => p.2.max_points)).sum) * 100
      else 0) =
      100 * (cats.map (fun p => p.2.points)).sum / (cats.map (fun p => p.2.max_points)).sum := by
    rw [if_pos h, div_mul_100]
  exact congrArg round1 heq

theorem fallbackCategories_mem {r : NewRubric} {p : String × CatStats}
    (hp : p ∈ fallbackCategories r) :
    ∃ cat ∈ r.categories,
      p.2.points = (((cat.criteria.map conservScore).sum : ℤ) : ℚ) ∧
      p.2.max_points = ((cat.max_points : ℤ) : ℚ) := by
  have hmem := mem_dictItems_mem hp
  rcases List.mem_map.mp hmem with ⟨cat, hcat, heq⟩
  have h2 := congrArg Prod.snd heq
  exact ⟨cat, hcat, by rw [← h2], by rw [← h2]⟩

theorem conservSum_bounds {cat : Category} (hpos : ∀ cr ∈ cat.criteria, 0 < cr.max_points)
    (hsum : cat.max_points = (cat.criteria.map (fun cr => cr.max_points)).sum) :
    0 ≤ (cat.criteria.map conservScore).sum ∧
      (cat.criteria.map conservScore).sum ≤ cat.max_points := by
  constructor
  · apply List.sum_nonneg
    intro x hx
    rcases List.mem_map.mp hx with ⟨cr, hcr, hxeq⟩
    rw [← hxeq]
    exact threeFifth_nonneg (le_of_lt (hpos cr hcr))
  · calc (cat.criteria.map conservScore).sum
        ≤ (cat.criteria.map (fun cr => cr.max_points)).sum := by
          apply List.sum_le_sum
          intro cr hcr
          exact threeFifth_le (le_of_lt (hpos cr hcr))
      _ = cat.max_points := hsum.symm

theorem fallbackCategories_bounds (r : NewRubric) (hw : WFRubric r) :
    ∀ p ∈ fallbackCategories r, 0 ≤ p.2.points ∧ p.2.points ≤ p.2.max_points := by
  obtain ⟨_, hcats, _, _⟩ := hw
  intro p hp
  obtain ⟨cat, hcat, hpts, hmax⟩ := fallbackCategories_mem hp
  obtain ⟨h0, h1⟩ := conservSum_bounds ((hcats cat hcat).2.2) ((hcats cat hcat).2.1)
  rw [hpts, hmax]
  exact ⟨by exact_mod_cast h0, by exact_mod_cast h1⟩

theorem fallbackNew_inv (r : NewRubric) (hw : WFRubric r) :
    ResultInv r (fallbackNewRubricEvaluation r) := by
  have hparts := overallUnguarded_parts r.thresholds (fallbackCategories r)
  exact ⟨fallbackCategories_bounds r hw, hparts.1, hparts.2.1, hparts.2.2.1, hparts.2.2.2⟩

theorem fallbackChunk_inv (r : NewRubric) (hw : WFRubric r) :
    ResultInv r (fallbackSingleChunkEvaluation r) :=
  resultInv_congr rfl rfl (fallbackNew_inv r hw)

theorem aggCategories_mem {r : NewRubric} {agg : List (String × Entry)} {p : String × CatStats}
    (hp : p ∈ aggCategories r agg) :
    ∃ cat ∈ r.categories,
      p.2.points = max 0 (min ((cat.criteria.map (fun cr =>
        match lastAssoc agg cr.criterion_id with
        | some e => e.score
        | none => 0)).sum) ((cat.max_points : ℤ) : ℚ)) ∧
      p.2.max_points = ((cat.max_points : ℤ) : ℚ) := by
  have hmem := mem_dictItems_mem hp
  rcases List.mem_map.mp hmem with ⟨cat, hcat, heq⟩
  have h2 := congrArg Prod.snd heq
  exact ⟨cat, hcat, by rw [← h2], by rw [← h2]⟩

theorem aggCategories_bounds (r : NewRubric)
    (hpos : ∀ cat ∈ r.categories, 0 < cat.max_points) (agg : List (String × Entry)) :
    ∀ p ∈ aggCategories r agg, 0 ≤ p.2.points ∧ p.2.points ≤ p.2.max_points := by
  intro p hp
  obtain ⟨cat, hcat, hpts, hmax⟩ := aggCategories_mem hp
  have hm : (0 : ℚ) ≤ ((cat.max_points : ℤ) : ℚ) := by
    exact_mod_cast le_of_lt (hpos cat hcat)
  rw [hpts, hmax]
  exact clamp_bounds_q hm

theorem aggCategories_maxsum_pos (r : NewRubric) (hne : r.categories ≠ [])
    (hpos : ∀ cat ∈ r.categories, 0 < cat.max_points) (agg : List (String × Entry)) :
    0 < ((aggCategories r agg).map (fun p => p.2.max_points)).sum := by
  apply List.sum_pos
  · intro x hx
    rcases List.mem_map.mp hx with ⟨p, hp, hxeq⟩
    obtain ⟨cat, hcat, _, hmax⟩ := aggCategories_mem hp
    rw [← hxeq, hmax]
    exact_mod_cast hpos cat hcat
  · simp only [ne_eq, List.map_eq_nil_iff]
    apply dictItems_ne_nil
    simp only [ne_eq, List.map_eq_nil_iff]
    exact hne

theorem resultInv_build (r : NewRubric) (res : EvalResult) (cats : List (String × CatStats))
    (hc : res.categories = cats)
    (hoG : res.overall = overallGuarded r.thresholds cats)
    (hb : ∀ p ∈ cats, 0 ≤ p.2.points ∧ p.2.points ≤ p.2.max_points)
    (hpos : 0 < (cats.map (fun p => p.2.max_points)).sum) :
    ResultInv r res := by
  have hp := overallGuarded_parts r.thresholds cats hpos
  unfold ResultInv
  rw [hc, hoG]
  exact ⟨hb, hp.1, hp.2.1, hp.2.2.1, hp.2.2.2⟩

theorem aggregateChunkResults_inv (r : NewRubric) (hw : WFRubric r)
    (chunkResults : List EvalResult) :
    ResultInv r (aggregateChunkResults r chunkResults) := by
  by_cases hcr : chunkResults.isEmpty
  · have h1 : aggregateChunkResults r chunkResults = fallbackNewRubricEvaluation r := by
      unfold aggregateChunkResults
      rw [if_pos hcr]
    rw [h1]
    exact fallbackNew_inv r hw
  · obtain ⟨hne, hcats, _, _⟩ := hw
    apply resultInv_build r _
      (aggCategories r (aggregateScoresNew r (chunkResults.map (fun res => res.scores))))
    · unfold aggregateChunkResults
      rw [if_neg hcr]
    · unfold aggregateChunkResults
      rw [if_neg hcr]
    · exact aggCategories_bounds r (fun cat hcat => (hcats cat hcat).1) _
    · exact aggCategories_maxsum_pos r hne (fun cat hcat => (hcats cat hcat).1) _

theorem clampCatStats_bounds {pts m : ℤ} (hm : 0 < m) :
    0 ≤ (clampCatStats pts m).points ∧
      (clampCatStats pts m).points ≤ (clampCatStats pts m).max_points := by
  have h1 : (clampCatStats pts m).points = ((max 0 (min pts m) : ℤ) : ℚ) := rfl
  have h2 : (clampCatStats pts m).max_points = ((m : ℤ) : ℚ) := rfl
  rw [h1, h2]
  constructor
  · exact_mod_cast le_max_left 0 (min pts m)
  · exact_mod_cast by omega

theorem clampCatStats_max (pts m : ℤ) : (clampCatStats pts m).max_points = ((m : ℤ) : ℚ) := rfl

theorem bothAxesCatResult_stats (r : NewRubric) (pc : Category × List (String × Entry)) :
    ∃ pts : ℤ, (bothAxesCatResult r pc).2.2 = clampCatStats pts pc.1.max_points :=
  ⟨_, rfl⟩

theorem bothAxesCategories_mem {r : NewRubric}
    {perCat : List (Category × List (String × Entry))} {p : String × CatStats}
    (hp : p ∈ bothAxesCategories r perCat) :
    ∃ pc ∈ perCat, p.2 = (bothAxesCatResult r pc).2.2 := by
  have hmem := mem_dictItems_mem hp
  rcases List.mem_map.mp hmem with ⟨q, hq, heq⟩
  rcases List.mem_map.mp hq with ⟨pc, hpc, hqe⟩
  refine ⟨pc, hpc, ?_⟩
  have h2 := congrArg Prod.snd heq
  simp only at h2
  rw [← h2, ← hqe]

theorem bothAxesCategories_bounds (r : NewRubric)
    (perCat : List (Category × List (String × Entry)))
    (hpos : ∀ pc ∈ perCat, 0 < pc.1.max_points) :
    ∀ p ∈ bothAxesCategories r perCat, 0 ≤ p.2.points ∧ p.2.points ≤ p.2.max_points := by
  intro p hp
  obtain ⟨pc, hpc, heq⟩ := bothAxesCategories_mem hp
  obtain ⟨pts, hstats⟩ := bothAxesCatResult_stats r pc
  rw [heq, hstats]
  exact clampCatStats_bounds (hpos pc hpc)

theorem bothAxesCategories_maxsum_pos (r : NewRubric)
    (perCat : List (Category × List (String × Entry)))
    (hpos : ∀ pc ∈ perCat, 0 < pc.1.max_points) (hnep : perCat ≠ []) :
    0 < ((bothAxesCategories r perCat).map (fun p => p.2.max_points)).sum := by
  apply List.sum_pos
  · intro x hx
    rcases List.mem_map.mp hx with ⟨p, hp, hxeq⟩
    obtain ⟨pc, hpc, heq⟩ := bothAxesCategories_mem hp
    obtain ⟨pts, hstats⟩ := bothAxesCatResult_stats r pc
    rw [← hxeq, heq, hstats, clampCatStats_max]
    exact_mod_cast hpos pc hpc
  · simp only [ne_eq, List.map_eq_nil_iff]
    apply dictItems_ne_nil
    simp only [ne_eq, List.map_eq_nil_iff]
    exact hnep

theorem bothAxesBuild_inv (r : NewRubric) (numChunks : Nat)
    (perCat : List (Category × List (String × Entry)))
    (hpos : ∀ pc ∈ perCat, 0 < pc.1.max_points) (hnep : perCat ≠ []) :
    ResultInv r (bothAxesBuild r numChunks perCat) := by
  apply resultInv_build r _ (bothAxesCategories r perCat) rfl rfl
  · exact bothAxesCategories_bounds r perCat hpos
  · exact bothAxesCategories_maxsum_pos r perCat hpos hnep

theorem evalBothAxes_ok_inv (r : NewRubric) (hw : WFRubric r) (text : List Char)
    (scorer : Scorer) {res : EvalResult}
    (h : evalTranscriptAndCategoryChunked r text scorer = .ok res) : ResultInv r res := by
  unfold evalTranscriptAndCategoryChunked at h
  split at h
  · rw [Except.ok.injEq] at h
    rw [← h]
    apply bothAxesBuild_inv
    · intro pc hpc
      rcases List.mem_map.mp hpc with ⟨cat, hcat, heq⟩
      have h1 : pc.1 = cat := by rw [← heq]
      rw [h1]
      exact (hw.2.1 cat hcat).1
    · unfold bothAxesPerCat
      simp only [ne_eq, List.map_eq_nil_iff]
      exact hw.1
  · exact absurd h (by simp)

theorem resultInv_parts {r : NewRubric} {res : EvalResult} (h : ResultInv r res) :
    res.overall.total_points = (res.categories.map (fun p => p.2.points)).sum ∧
    res.overall.percentage =
      round1 (100 * res.overall.total_points / res.overall.max_points) ∧
    res.overall.pass_status = passStatusOf r.thresholds res.overall.total_points :=
  ⟨h.2.1, h.2.2.1, h.2.2.2.2⟩

theorem categoryOnlyMerge_inv_parts (r : NewRubric)
    (units : List (String × (List (String × Entry) × CatStats))) :
    (categoryOnlyMerge r units).overall.total_points =
      ((categoryOnlyMerge r units).categories.map (fun p => p.2.points)).sum ∧
    (categoryOnlyMerge r units).overall.percentage =
      round1 (100 * (categoryOnlyMerge r units).overall.total_points /
        (categoryOnlyMerge r units).overall.max_points) ∧
    (categoryOnlyMerge r units).overall.pass_status =
      passStatusOf r.thresholds (categoryOnlyMerge r units).overall.total_points := by
  have hp := overallUnguarded_parts r.thresholds (dictItems (units.map (fun p => (p.1, p.2.2))))
  exact ⟨hp.1, hp.2.1, hp.2.2.2⟩

/-- C1 (amended).  For every hierarchical evaluation with a well-formed
rubric: on the single-call, transcript-chunked and both-axes paths the
full result invariant holds — every category satisfies
`0 ≤ points ≤ max_points`, `overall.total_points` is the category sum,
`overall.percentage = round(100·total/max, 1)` and `pass_status` is the
pure threshold function of the recomputed total.  On the category-only
path the overall block is still recomputed from the collected category
blocks (total = sum, rounded percentage, threshold-derived status), but
the per-category blocks of successful calls are the scorer's verbatim
`category` objects and may violate the bounds (see the counterexample). -/
theorem spec2proof_C1 (r : NewRubric) (hw : WFRubric r) :
    (∀ raw : RawResult, ResultInv r (normalizeNewFormatResult r raw)) ∧
    (∀ (text : List Char) (scorer : Scorer) (res : EvalResult),
      pathNewRubricFormat r text ≠ DecompPath.categoryOnly →
      evaluateNewRubricFormat r text scorer = .ok res → ResultInv r res) ∧
    (∀ (text : List Char) (scorer : Scorer) (res : EvalResult),
      evaluateNewRubricFormat r text scorer = .ok res →
      res.overall.total_points = (res.categories.map (fun p => p.2.points)).sum ∧
      res.overall.percentage =
        round1 (100 * res.overall.total_points / res.overall.max_points) ∧
      res.overall.pass_status = passStatusOf r.thresholds res.overall.total_points) := by
  have hmain : ∀ (text : List Char) (scorer : Scorer) (res : EvalResult),
      evaluateNewRubricFormat r text scorer = .ok res →
      (pathNewRubricFormat r text = DecompPath.categoryOnly ∧
        ∃ units, res = categoryOnlyMerge r units) ∨ ResultInv r res := by
    intro text scorer res hok
    unfold evaluateNewRubricFormat at hok
    by_cases h10 : 10 < totalCriteria r
    · rw [if_pos h10] at hok
      unfold evalComplexRubricChunked at hok
      by_cases h4 : 4000 < text.length
      · rw [if_pos h4] at hok
        unfold evalTranscriptChunked at hok
        rw [if_pos h10] at hok
        exact Or.inr (evalBothAxes_ok_inv r hw text scorer hok)
      · rw [if_neg h4] at hok
        cases hu : categoryOnlyUnits r scorer with
        | error e =>
          rw [hu] at hok
          exact absurd hok (by simp [Except.map])
        | ok units =>
          rw [hu] at hok
          simp only [Except.map] at hok
          rw [Except.ok.injEq] at hok
          refine Or.inl ⟨?_, units, hok.symm⟩
          unfold pathNewRubricFormat pathComplexRubricChunked
          rw [if_pos h10, if_neg h4]
    · rw [if_neg h10] at hok
      unfold evalSimpleRubric at hok
      by_cases h4 : 4000 < text.length
      · rw [if_pos h4] at hok
        unfold evalTranscriptChunked at hok
        rw [if_neg h10] at hok
        rw [Except.ok.injEq] at hok
        rw [← hok]
        exact Or.inr (aggregateChunkResults_inv r hw _)
      · rw [if_neg h4] at hok
        cases hsing : scorer.single with
        | some raw =>
          rw [hsing] at hok
          simp only [Except.ok.injEq] at hok
          rw [← hok]
          exact Or.inr (normalize_inv r hw raw)
        | none =>
          rw [hsing] at hok
          simp only [Except.ok.injEq] at hok
          rw [← hok]
          exact Or.inr (fallbackNew_inv r hw)
  refine ⟨fun raw => normalize_inv r hw raw, ?_, ?_⟩
  · intro text scorer res hpath hok
    rcases hmain text scorer res hok with ⟨hp, _⟩ | hinv
    · exact absurd hp hpath
    · exact hinv
  · intro text scorer res hok
    rcases hmain text scorer res hok with ⟨_, units, hres⟩ | hinv
    · rw [hres]
      exact categoryOnlyMerge_inv_parts r units
    · exact resultInv_parts hinv

unseal Rat.add Rat.mul Rat.sub Rat.inv in
/-- C1 counterexample: on the category-only path (11 criteria, short
transcript) the final result carries the scorer's verbatim `category`
block — category `catA` reports 999 of 6 points, violating
`0 ≤ points ≤ max_points`. -/
theorem spec2proof_C1_cex :
    ((evaluateNewRubricFormat rubric11 textShort scorerBogusCategory).toOption.bind
      (fun res => lastAssoc res.categories "catA")).map (fun cs => (cs.points, cs.max_points))
      = some (999, 6) ∧ ¬ ((999 : ℚ) ≤ 6) ∧ WFRubric rubric11 := by
  refine ⟨by decide, by norm_num, by decide⟩

unseal Rat.add Rat.mul Rat.sub Rat.inv in
/-- C1 witness: the invariant theorem applied to the concrete one-category
rubric and the half-score response. -/
theorem spec2proof_C1_witness :
    WFRubric rubricOneCat ∧
      ResultInv rubricOneCat (normalizeNewFormatResult rubricOneCat rawHalf) :=
  ⟨by decide, (spec2proof_C1 rubricOneCat (by decide)).1 rawHalf⟩

/-- C2: the decomposition decision of `_evaluate_with_new_rubric_format`
follows exactly the claimed precedence — more than 10 criteria AND more
than 4000 characters: both axes; more than 10 criteria only: category
only; more than 4000 characters only: transcript chunks only; otherwise
a single call. -/
theorem spec2proof_C2 (r : NewRubric) (text : List Char) :
    pathNewRubricFormat r text = claimedPath (totalCriteria r) text.length := by
  unfold pathNewRubricFormat pathComplexRubricChunked pathSimpleRubric
    pathTranscriptChunked claimedPath
  by_cases h10 : 10 < totalCriteria r <;> by_cases h4 : 4000 < text.length <;>
    simp [h10, h4]

unseal Rat.add Rat.mul Rat.sub Rat.inv in
/-- C6: the validator accepts a hierarchical rubric whose total category
`max_points` (10) differs from `scale.max` (100): the source accumulates
`total_max_points` but never compares it to the scale, so the claimed
rejection does not happen. -/
theorem spec2proof_C6 :
    validateNewRubricFormat rubricScaleMismatch = (true, none) ∧
    ((rubricScaleMismatch.categories.map (fun cat => cat.max_points)).sum : ℚ) ≠
      rubricScaleMismatch.scale.max := by
  exact ⟨by decide, by decide⟩

/- ## Chunker lemmas (C7) -/

theorem chunkNextStart_gt (t : List Char) (cs ov : Nat) (start : Nat) :
    start < chunkNextStart t cs ov start :=
  lt_of_lt_of_le (Nat.lt_succ_self start) (le_max_left _ _)

theorem chunkLoop_zero (t : List Char) (cs ov start : Nat) :
    chunkLoop t cs ov 0 start = [] := rfl

theorem chunkLoop_succ (t : List Char) (cs ov fuel start : Nat) :
    chunkLoop t cs ov (fuel + 1) start =
      if start < t.length then
        if (pyStrip ((t.drop start).take (chunkEnd t cs start - start))).isEmpty then
          chunkLoop t cs ov fuel (chunkNextStart t cs ov start)
        else
          pyStrip ((t.drop start).take (chunkEnd t cs start - start)) ::
            chunkLoop t cs ov fuel (chunkNextStart t cs ov start)
      else [] := rfl

theorem chunkLoop_of_ge (t : List Char) (cs ov fuel start : Nat)
    (h : t.length ≤ start) : chunkLoop t cs ov fuel start = [] := by
  cases fuel with
  | zero => rfl
  | succ n => rw [chunkLoop_succ, if_neg (by omega)]

theorem chunkLoop_fuel_irrel (t : List Char) (cs ov : Nat) :
    ∀ f₁ f₂ start, t.length - start ≤ f₁ → t.length - start ≤ f₂ →
      chunkLoop t cs ov f₁ start = chunkLoop t cs ov f₂ start := by
  intro f₁
  induction f₁ with
  | zero =>
    intro f₂ start h1 _
    rw [chunkLoop_zero, chunkLoop_of_ge t cs ov f₂ start (by omega)]
  | succ n ih =>
    intro f₂ start h1 h2
    by_cases hs : start < t.length
    · cases f₂ with
      | zero => omega
      | succ m =>
        rw [chunkLoop_succ, chunkLoop_succ, if_pos hs, if_pos hs]
        have hlt := chunkNextStart_gt t cs ov start
        rw [ih m (chunkNextStart t cs ov start) (by omega) (by omega)]
    · rw [chunkLoop_of_ge t cs ov _ _ (by omega),
        chunkLoop_of_ge t cs ov _ _ (by omega)]

theorem chunkLoop_length_le (t : List Char) (cs ov : Nat) :
    ∀ fuel start, (chunkLoop t cs ov fuel start).length ≤ t.length - start := by
  intro fuel
  induction fuel with
  | zero =>
    intro start
    rw [chunkLoop_zero]
    exact Nat.zero_le _
  | succ n ih =>
    intro start
    rw [chunkLoop_succ]
    split
    · rename_i h
      have hlt := chunkNextStart_gt t cs ov start
      have hrec := ih (chunkNextStart t cs ov start)
      split
      · exact le_trans hrec (by omega)
      · simp only [List.length_cons]
        omega
    · simp

/-- C7 (amended): for every text, `chunk_size > 0` and any overlap —
including `overlap ≥ chunk_size` — the chunker terminates: every loop
iteration strictly increases the start position via
`max(previous_start+1, boundary−overlap)`, the result is a finite list
of at most `length + 1` chunks, and a text no longer than `chunk_size`
is returned as the single chunk `[text]`.  The result can be **empty**
(not non-empty as claimed) when the text exceeds `chunk_size` and every
window strips to whitespace — see the counterexample. -/
theorem spec2proof_C7 (t : List Char) (cs ov : Nat) (_hcs : 0 < cs) :
    (∀ start, start < chunkNextStart t cs ov start) ∧
    (∀ fuel, t.length ≤ fuel →
      chunkLoop t cs ov fuel 0 = chunkLoop t cs ov t.length 0) ∧
    (chunkTranscript t cs ov).length ≤ t.length + 1 ∧
    (t.length ≤ cs → chunkTranscript t cs ov = [t]) := by
  refine ⟨chunkNextStart_gt t cs ov, ?_, ?_, ?_⟩
  · intro fuel hf
    exact chunkLoop_fuel_irrel t cs ov fuel t.length 0 (by omega) (by omega)
  · unfold chunkTranscript
    split
    · simp
    · have := chunkLoop_length_le t cs ov t.length 0
      omega
  · intro hle
    unfold chunkTranscript
    rw [if_pos hle]

/-- C7 witness: the bound and progress facts at `chunk_size = 10`,
`overlap = 15` on the 11-space text. -/
theorem spec2proof_C7_witness :
    0 < 10 ∧
    ((∀ start, start < chunkNextStart wsText 10 15 start) ∧
      (∀ fuel, wsText.length ≤ fuel →
        chunkLoop wsText 10 15 fuel 0 = chunkLoop wsText 10 15 wsText.length 0) ∧
      (chunkTranscript wsText 10 15).length ≤ wsText.length + 1 ∧
      (wsText.length ≤ 10 → chunkTranscript wsText 10 15 = [wsText])) :=
  ⟨by decide, spec2proof_C7 wsText 10 15 (by decide)⟩

/-- C7 counterexample: an 11-character all-whitespace text with
`chunk_size = 100 < 150 = overlap`-style parameters (10 and 15) yields
an **empty** chunk list, refuting the claimed non-emptiness. -/
theorem spec2proof_C7_cex :
    chunkTranscript wsText 10 15 = [] ∧ wsText.length = 11 ∧ (0 : Nat) < 10 ∧ (10 : Nat) ≤ 15 := by
  exact ⟨by decide, by decide, by decide, by decide⟩

/- ## Substring-containment lemmas (the fallback-marker contract) -/

theorem containsSub_of_infix {sub s : String} (h : sub.data <:+: s.data) :
    ContainsSub sub s := by
  obtain ⟨p, q, hpq⟩ := h
  refine ⟨⟨p⟩, ⟨q⟩, String.ext ?_⟩
  rw [String.data_append, String.data_append]
  exact hpq.symm

theorem containsSub_self (s : String) : ContainsSub s s :=
  containsSub_of_infix (List.infix_refl _)

theorem containsSub_append_left {sub s : String} (h : ContainsSub sub s) (t : String) :
    ContainsSub sub (s ++ t) := by
  obtain ⟨p, q, rfl⟩ := h
  exact ⟨p, q ++ t, String.append_assoc (p ++ sub) q t⟩

theorem containsSub_append_right {sub t : String} (h : ContainsSub sub t) (s : String) :
    ContainsSub sub (s ++ t) := by
  obtain ⟨p, q, rfl⟩ := h
  exact ⟨s ++ p, q, by simp only [String.append_assoc]⟩

theorem mem_joinSep_contains {sub x : String} (sep : String) :
    ∀ {l : List String}, x ∈ l → ContainsSub sub x → ContainsSub sub (joinSep sep l) := by
  intro l
  induction l with
  | nil => intro h; cases h
  | cons a rest ih =>
    intro hmem hc
    cases rest with
    | nil =>
      rw [List.mem_singleton] at hmem
      subst hmem
      exact hc
    | cons b xs =>
      rcases List.mem_cons.mp hmem with hax | hmem2
      · subst hax
        exact containsSub_append_left (containsSub_append_left hc sep) _
      · exact containsSub_append_right (ih hmem2 hc) _

theorem ne_empty_of_marker {s : String} (h : ContainsSub conservMarker s) : s ≠ "" := by
  obtain ⟨p, q, rfl⟩ := h
  intro hq
  have h1 := congrArg String.length hq
  rw [String.length_append, String.length_append] at h1
  have h2 : conservMarker.length = 33 := by decide
  have h3 : ("" : String).length = 0 := by decide
  omega

/- ## Monadic and fold helpers -/

theorem catPointsAcc_eq (r : NewRubric) (scores : List (String × Entry)) (catId : String) :
    catPointsAcc r scores catId =
      ((scores.filter (fun p => critToCat r p.1 = some catId)).map
        (fun p => p.2.score)).sum := by
  unfold catPointsAcc
  suffices h : ∀ (l : List (String × Entry)) (a : ℚ),
      l.foldl (fun acc p => if critToCat r p.1 = some catId then acc + p.2.score else acc) a =
        a + ((l.filter (fun p => critToCat r p.1 = some catId)).map
          (fun p => p.2.score)).sum by
    rw [h scores 0, zero_add]
  intro l
  induction l with
  | nil => intro a; simp
  | cons x rest ih =>
    intro a
    by_cases hx : critToCat r x.1 = some catId
    · rw [List.foldl_cons, if_pos hx, ih, List.filter_cons_of_pos (by simpa using hx),
        List.map_cons, List.sum_cons]
      ring
    · rw [List.foldl_cons, if_neg hx, ih, List.filter_cons_of_neg (by simpa using hx)]

theorem bothAxesEntry_note_contains (r : NewRubric) (contribs : List (String × Entry))
    (cid : String)
    (h : ∃ p ∈ contribs, p.1 = cid ∧ ContainsSub conservMarker (p.2.note.getD "")) :
    ContainsSub conservMarker ((bothAxesEntry r contribs cid).1.2.note.getD "") := by
  obtain ⟨p, hp, hpc, hcm⟩ := h
  have hmem : p.2 ∈ contribs.filterMap (fun q => if q.1 = cid then some q.2 else none) :=
    List.mem_filterMap.mpr ⟨p, hp, by rw [if_pos hpc]⟩
  show ContainsSub conservMarker
    ("Aggregated from " ++
      toString (contribs.filterMap (fun q => if q.1 = cid then some q.2 else none)).length ++
      " chunks: " ++
      joinSep " | " (((contribs.filterMap (fun q => if q.1 = cid then some q.2 else none)).map
        (fun e => e.note.getD "")).filter (fun s => s ≠ "")))
  apply containsSub_append_right
  apply mem_joinSep_contains " | " ?_ hcm
  exact List.mem_filter.mpr ⟨List.mem_map.mpr ⟨p.2, hmem, rfl⟩,
    by simpa using ne_empty_of_marker hcm⟩

/- ## C3: overall recomputation vs verbatim passthrough -/

/-- C3 (amended): on the hierarchical format the normalizer's published
`overall` and `scores` depend only on the scorer's per-criterion `scores`
dict — two responses agreeing there, whatever their `overall` blocks
assert, normalize to identical totals, percentage and pass status.  On
the flat format, however, the un-chunked success path returns the scorer
response **verbatim**, its `overall` and `pass_status` included, so the
claimed recomputation does not happen there (see the counterexample). -/
theorem spec2proof_C3 (r : NewRubric) (res1 res2 : RawResult)
    (h : res1.scores = res2.scores) :
    (normalizeNewFormatResult r res1).overall = (normalizeNewFormatResult r res2).overall ∧
    (normalizeNewFormatResult r res1).scores = (normalizeNewFormatResult r res2).scores ∧
    (∀ (ro : OldRubric) (resp : OldResult), evalOldFormatUnchunked ro (some resp) = resp) := by
  have h1 : ∀ res : RawResult, (normalizeNewFormatResult r res).overall =
      normOverall r (normCategories r (normScores r res.scores)) := fun _ => rfl
  have h2 : ∀ res : RawResult,
      (normalizeNewFormatResult r res).scores = normScores r res.scores := fun _ => rfl
  refine ⟨?_, ?_, fun ro resp => rfl⟩
  · rw [h1, h1, h]
  · rw [h2, h2, h]

/-- C3 witness: two hierarchical responses that differ only in the
scorer-asserted `overall` block normalize identically. -/
theorem spec2proof_C3_witness :
    rawOv1.scores = rawOv2.scores ∧
    ((normalizeNewFormatResult rubricOneCat rawOv1).overall =
        (normalizeNewFormatResult rubricOneCat rawOv2).overall ∧
      (normalizeNewFormatResult rubricOneCat rawOv1).scores =
        (normalizeNewFormatResult rubricOneCat rawOv2).scores ∧
      (∀ (ro : OldRubric) (resp : OldResult), evalOldFormatUnchunked ro (some resp) = resp)) :=
  ⟨rfl, spec2proof_C3 rubricOneCat rawOv1 rawOv2 rfl⟩

/-- C3 counterexample: on the flat-format un-chunked path two scorer
responses with identical per-criterion scores but contradictory `overall`
blocks produce different final `pass_status` — the external scorer's
overall is published verbatim. -/
theorem spec2proof_C3_cex :
    oldRespPass.scores = oldRespFail.scores ∧
    (evalOldFormatUnchunked oldRubric2 (some oldRespPass)).overall.pass_status = "pass" ∧
    (evalOldFormatUnchunked oldRubric2 (some oldRespFail)).overall.pass_status = "fail" :=
  ⟨rfl, rfl, rfl⟩

/- ## C4: the per-criterion clamp -/

/-- C4 (amended): the un-chunked hierarchical single-call path runs the
normalizer, whose per-criterion clamp stores
`max(0, min(round(score), crit_max))` — `round` being Python's
half-to-**even** rounding, not the claimed half-away-from-zero (see the
counterexample) — and for every rubric criterion the clamped value lands
in `[0, max_points]`, so an out-of-range 999 for a 5-point criterion does
become 5. -/
theorem spec2proof_C4 (r : NewRubric) (hw : WFRubric r) (text : List Char) (scorer : Scorer)
    (raw : RawResult) (hshort : ¬ 4000 < text.length) (hsing : scorer.single = some raw) :
    evalSimpleRubric r text scorer = .ok (normalizeNewFormatResult r raw) ∧
    (∀ p ∈ (normalizeNewFormatResult r raw).scores,
      ∃ d, lastAssoc raw.scores p.1 = some d ∧
        p.2.score = ((max 0 (min (pyRound (d.score.getD 0)) (critMaxD r p.1)) : ℤ) : ℚ)) ∧
    (∀ cat ∈ r.categories, ∀ cr ∈ cat.criteria, ∀ d : RawEntry,
      0 ≤ (clampEntry r cr.criterion_id d).score ∧
      (clampEntry r cr.criterion_id d).score ≤ ((cr.max_points : ℤ) : ℚ)) := by
  refine ⟨?_, ?_, ?_⟩
  · unfold evalSimpleRubric
    rw [if_neg hshort, hsing]
  · intro p hp
    have hp2 : p ∈ normScores r raw.scores := hp
    unfold normScores at hp2
    rcases List.mem_map.mp hp2 with ⟨q, hq, heq⟩
    have hf1 := congrArg Prod.fst heq
    have hf2 := congrArg Prod.snd heq
    simp only at hf1 hf2
    refine ⟨q.2, ?_, ?_⟩
    · rw [← hf1]
      exact mem_dictItems_lastAssoc hq
    · rw [← hf1, ← hf2]
      rfl
  · intro cat hcat cr hcr d
    have hmax : critMaxD r cr.criterion_id = cr.max_points := critMaxD_of_mem hw.2.2.1 hcat hcr
    have hsc : (clampEntry r cr.criterion_id d).score =
        ((max 0 (min (pyRound (d.score.getD 0)) (critMaxD r cr.criterion_id)) : ℤ) : ℚ) := rfl
    rw [hsc, hmax]
    constructor
    · exact_mod_cast le_max_left 0 _
    · have hle : max 0 (min (pyRound (d.score.getD 0)) cr.max_points) ≤ cr.max_points := by
        have := (hw.2.1 cat hcat).2.2 cr hcr
        omega
      exact_mod_cast hle

/-- C4 witness: the single-call clamp at the concrete one-criterion
rubric and the 999-scoring response. -/
theorem spec2proof_C4_witness :
    (WFRubric rubricOneCat ∧ ¬ 4000 < textShort.length ∧
      scorerSingle999.single = some raw999) ∧
    (evalSimpleRubric rubricOneCat textShort scorerSingle999 =
        .ok (normalizeNewFormatResult rubricOneCat raw999) ∧
      (∀ p ∈ (normalizeNewFormatResult rubricOneCat raw999).scores,
        ∃ d, lastAssoc raw999.scores p.1 = some d ∧
          p.2.score = ((max 0 (min (pyRound (d.score.getD 0))
            (critMaxD rubricOneCat p.1)) : ℤ) : ℚ)) ∧
      (∀ cat ∈ rubricOneCat.categories, ∀ cr ∈ cat.criteria, ∀ d : RawEntry,
        0 ≤ (clampEntry rubricOneCat cr.criterion_id d).score ∧
        (clampEntry rubricOneCat cr.criterion_id d).score ≤ ((cr.max_points : ℤ) : ℚ))) :=
  ⟨⟨by decide, by decide, rfl⟩,
    spec2proof_C4 rubricOneCat (by decide) textShort scorerSingle999 raw999 (by decide) rfl⟩

unseal Rat.add Rat.mul Rat.sub Rat.inv in
/-- C4 counterexample: the source clamp rounds half to **even**, not half
away from zero — a reported 2.5 for the 5-point criterion `a` becomes 2
where the claimed rounding gives 3; the out-of-range 999 does become 5. -/
theorem spec2proof_C4_cex :
    ((normalizeNewFormatResult rubricOneCat rawHalf).scores.map
      (fun p => (p.1, p.2.score))) = [("a", 2)] ∧
    roundHalfAwayFromZero (5/2) = 3 ∧
    pyRound (5/2) = 2 ∧
    ((normalizeNewFormatResult rubricOneCat raw999).scores.map
      (fun p => (p.1, p.2.score))) = [("a", 5)] :=
  ⟨by decide, by decide, by decide, by decide⟩

/- ## C5: all-units-fail behaviour per path -/

theorem bothAxes_allFail_guard (r : NewRubric) (text : List Char) :
    (bothAxesPerCat r text allFailScorer).all
      (fun p => p.2.all (fun q => q.2.confidence.isSome && q.2.note.isSome)) = true := by
  apply List.all_eq_true.mpr
  intro pc hpc
  apply List.all_eq_true.mpr
  intro q hq
  rcases List.mem_map.mp hpc with ⟨cat, hcat, heq⟩
  have h2 := congrArg Prod.snd heq
  simp only at h2
  rw [← h2] at hq
  rcases List.mem_flatMap.mp hq with ⟨i, _, hqi⟩
  have hqi2 : q ∈ cat.criteria.map (fun cr => (cr.criterion_id,
      ({ score := ((conservScore cr : ℤ) : ℚ)
         confidence := some 3
         note := some (conservMarker ++ " for category " ++ cat.label ++
           " in chunk " ++ toString (i + 1)) } : Entry))) := hqi
  rcases List.mem_map.mp hqi2 with ⟨cr, hcr, heq2⟩
  have h3 := congrArg Prod.snd heq2
  simp only at h3
  rw [← h3]
  rfl

theorem bothAxes_allFail_marker (r : NewRubric) (text : List Char) :
    ∀ p ∈ (bothAxesBuild r (bothAxesNumChunks text)
      (bothAxesPerCat r text allFailScorer)).scores,
      ContainsSub conservMarker (p.2.note.getD "") := by
  intro p hp
  have hp2 : p ∈ dictItems (((bothAxesPerCat r text allFailScorer).map
      (bothAxesCatResult r)).flatMap (fun q => q.2.1)) := hp
  have hmem := mem_dictItems_mem hp2
  rcases List.mem_flatMap.mp hmem with ⟨cres, hcres, hpc⟩
  rcases List.mem_map.mp hcres with ⟨pc, hpc2, hceq⟩
  rw [← hceq] at hpc
  have hpc3 : p ∈ ((dedupKeys (pc.2.map Prod.fst)).map
      (fun cid => bothAxesEntry r pc.2 cid)).map (fun q => q.1) := hpc
  rcases List.mem_map.mp hpc3 with ⟨q, hq, hqeq⟩
  rcases List.mem_map.mp hq with ⟨cid, hcid, hqe⟩
  rw [mem_dedupKeys] at hcid
  rcases List.mem_map.mp hcid with ⟨pr, hpr, hpreq⟩
  have hpr0 := hpr
  rcases List.mem_map.mp hpc2 with ⟨cat, hcat, hpceq⟩
  have hsnd := congrArg Prod.snd hpceq
  simp only at hsnd
  rw [← hsnd] at hpr
  rcases List.mem_flatMap.mp hpr with ⟨i, _, hpri⟩
  have hpri2 : pr ∈ cat.criteria.map (fun cr => (cr.criterion_id,
      ({ score := ((conservScore cr : ℤ) : ℚ)
         confidence := some 3
         note := some (conservMarker ++ " for category " ++ cat.label ++
           " in chunk " ++ toString (i + 1)) } : Entry))) := hpri
  rcases List.mem_map.mp hpri2 with ⟨cr, hcr, heqr⟩
  have h3 := congrArg Prod.snd heqr
  simp only at h3
  have hnote : pr.2.note = some (conservMarker ++ " for category " ++ cat.label ++
      " in chunk " ++ toString (i + 1)) := by rw [← h3]
  have hcm : ContainsSub conservMarker (pr.2.note.getD "") := by
    rw [hnote]
    exact containsSub_append_left (containsSub_append_left (containsSub_append_left
      (containsSub_append_left (containsSub_self conservMarker) _) _) _) _
  have hfin := bothAxesEntry_note_contains r pc.2 cid ⟨pr, hpr0, hpreq, hcm⟩
  rw [← hqeq, ← hqe]
  exact hfin

/-- C8 (amended): when a criterion has chunk contributions, both
aggregators take the **maximum** of the per-chunk confidences and build
the note by joining the per-chunk notes behind an
`"Aggregated from N chunks: "` prefix, as claimed; the stored score,
however, is not the raw arithmetic mean: the hierarchical aggregator
stores `max(0, min(round(mean), crit_max))` and the flat aggregator
stores `round(mean, 1)` — the mean is only the unrounded intermediate
(see the counterexample). -/
theorem spec2proof_C8 :
    (∀ (r : NewRubric) (scoreMaps : List (List (String × Entry))) (cid : String),
      contributionsNew scoreMaps cid ≠ [] →
      aggEntryNew r scoreMaps cid =
        { score := ((max 0 (min
              (pyRound (((contributionsNew scoreMaps cid).map (fun e => e.score)).sum /
                (((contributionsNew scoreMaps cid).map (fun e => e.score)).length : ℚ)))
              (critMaxScan r cid)) : ℤ) : ℚ)
          confidence := some (pyMax ((contributionsNew scoreMaps cid).map
            (fun e => e.confidence.getD 5)))
          note := some ("Aggregated from " ++
            toString (contributionsNew scoreMaps cid).length ++ " chunks: " ++
            joinSep " | " (((contributionsNew scoreMaps cid).map
              (fun e => e.note.getD "")).filter (fun s => s ≠ ""))) }) ∧
    (∀ (scoreMaps : List (List (String × RawEntry))) (cid : String),
      scoreMaps.filterMap (fun m => lastAssoc m cid) ≠ [] →
      aggEntryOld scoreMaps cid =
        { score := round1
            (((scoreMaps.filterMap (fun m => lastAssoc m cid)).map
                (fun d => d.score.getD 0)).sum /
              (((scoreMaps.filterMap (fun m => lastAssoc m cid)).map
                (fun d => d.score.getD 0)).length : ℚ))
          confidence := some (pyMax ((scoreMaps.filterMap (fun m => lastAssoc m cid)).map
            (fun d => d.confidence.getD 5)))
          note := some ("Aggregated from " ++
            toString (scoreMaps.filterMap (fun m => lastAssoc m cid)).length ++ " chunks: " ++
            joinSep " | " (((scoreMaps.filterMap (fun m => lastAssoc m cid)).map
              (fun d => d.note.getD "")).filter (fun s => s ≠ ""))) }) := by
  constructor
  · intro r scoreMaps cid hL
    unfold aggEntryNew
    rw [if_neg (by simpa [List.isEmpty_iff] using hL)]
  · intro scoreMaps cid hL
    unfold aggEntryOld
    rw [if_neg (by simpa [List.isEmpty_iff] using hL)]

unseal Rat.add Rat.mul Rat.sub Rat.inv in
/-- C8 witness: the aggregation formulas at the concrete two-chunk
contribution list for criterion `a`. -/
theorem spec2proof_C8_witness :
    contributionsNew [chunkResA.scores, chunkResB.scores] "a" ≠ [] ∧
    aggEntryNew rubricOneCat [chunkResA.scores, chunkResB.scores] "a" =
      { score := ((max 0 (min
            (pyRound (((contributionsNew [chunkResA.scores, chunkResB.scores] "a").map
                (fun e => e.score)).sum /
              (((contributionsNew [chunkResA.scores, chunkResB.scores] "a").map
                (fun e => e.score)).length : ℚ)))
            (critMaxScan rubricOneCat "a")) : ℤ) : ℚ)
        confidence := some (pyMax ((contributionsNew [chunkResA.scores, chunkResB.scores] "a").map
          (fun e => e.confidence.getD 5)))
        note := some ("Aggregated from " ++
          toString (contributionsNew [chunkResA.scores, chunkResB.scores] "a").length ++
          " chunks: " ++
          joinSep " | " (((contributionsNew [chunkResA.scores, chunkResB.scores] "a").map
            (fun e => e.note.getD "")).filter (fun s => s ≠ ""))) } :=
  ⟨by decide, (spec2proof_C8).1 rubricOneCat [chunkResA.scores, chunkResB.scores] "a" (by decide)⟩

unseal Rat.add Rat.mul Rat.sub Rat.inv in
/-- C8 counterexample: chunk scores 2 and 3 for the 5-point criterion `a`
have arithmetic mean 5/2, yet the aggregated entry stores score 2 (the
half-to-even rounded clamp), so the stored score is not the mean; the
claimed confidence-maximum (6) and note shape do hold. -/
theorem spec2proof_C8_cex :
    aggregateScoresNew rubricOneCat [chunkResA.scores, chunkResB.scores] =
      [("a", { score := 2, confidence := some 6,
               note := some "Aggregated from 2 chunks: n1 | n2" })] ∧
    (((contributionsNew [chunkResA.scores, chunkResB.scores] "a").map
        (fun e => e.score)).sum /
      (((contributionsNew [chunkResA.scores, chunkResB.scores] "a").map
        (fun e => e.score)).length : ℚ)) = 5/2 ∧
    (2 : ℚ) ≠ 5/2 :=
  ⟨by decide, by decide, by decide⟩

/- ## C9: the all-calls-fail scenario on the 15-criterion rubric -/

theorem eval_rubric15_allFail :
    evaluateNewRubricFormat rubric15 textLong allFailScorer =
      Except.ok (bothAxesBuild rubric15 (bothAxesNumChunks textLong)
        (bothAxesPerCat rubric15 textLong allFailScorer)) := by
  unfold evaluateNewRubricFormat evalComplexRubricChunked evalTranscriptChunked
    evalTranscriptAndCategoryChunked
  have h4 : 4000 < textLong.length := by
    show 4000 < (List.replicate 4001 'a').length
    rw [List.length_replicate]
    omega
  rw [if_pos (by decide : 10 < totalCriteria rubric15), if_pos h4,
    if_pos (by decide : 10 < totalCriteria rubric15),
    if_pos (bothAxes_allFail_guard rubric15 textLong)]

theorem bothAxesNumChunks_textLong : bothAxesNumChunks textLong = 1 := by
  have hle : textLong.length ≤ 8000 := by
    show (List.replicate 4001 'a').length ≤ 8000
    rw [List.length_replicate]
    omega
  unfold bothAxesNumChunks chunkTranscript
  rw [if_pos hle]
  rfl

theorem bothAxesPerCat_textLong :
    bothAxesPerCat rubric15 textLong allFailScorer =
      rubric15.categories.map (fun cat =>
        (cat, (List.range 1).flatMap (fun i =>
          evalSingleCategoryInChunk rubric15 cat (i + 1)
            (allFailScorer.catChunk cat.category_id (i + 1))))) := by
  unfold bothAxesPerCat
  rw [bothAxesNumChunks_textLong]

unseal Rat.add Rat.mul Rat.sub Rat.inv in
/-- C9 (amended): on the 15-criterion, 100-point rubric with a
4001-character transcript and every scorer call failing, the run returns
`.ok` with `total_points = 55` — the sum over categories of the clamped
per-category sum of the per-criterion conservative scores
`int(0.6·max_points)` (truncated **per criterion**, not rounded on the
total as claimed; see the counterexample) — and every criterion note
contains the conservative-score marker text. -/
theorem spec2proof_C9 :
    ∃ res, evaluateNewRubricFormat rubric15 textLong allFailScorer = Except.ok res ∧
      res.overall.total_points =
        (((rubric15.categories.map (fun cat =>
          max 0 (min ((cat.criteria.map conservScore).sum) cat.max_points))).sum : ℤ) : ℚ) ∧
      res.overall.total_points = 55 ∧
      (∀ p ∈ res.scores, ContainsSub conservMarker (p.2.note.getD "")) := by
  refine ⟨bothAxesBuild rubric15 (bothAxesNumChunks textLong)
      (bothAxesPerCat rubric15 textLong allFailScorer),
    eval_rubric15_allFail, ?_, ?_, bothAxes_allFail_marker rubric15 textLong⟩
  · rw [bothAxesPerCat_textLong, bothAxesNumChunks_textLong]
    decide
  · rw [bothAxesPerCat_textLong, bothAxesNumChunks_textLong]
    decide

unseal Rat.add Rat.mul Rat.sub Rat.inv in
/-- C9 counterexample: the claim's formula `round(Σ 0.6·max_points)`
gives 60 for this rubric, but the run's `total_points` is 55 — each
criterion's `int(0.6·max)` truncates before summation
(`int(0.6·7) = 4`), so the claimed total is wrong. -/
theorem spec2proof_C9_cex :
    ∃ res, evaluateNewRubricFormat rubric15 textLong allFailScorer = Except.ok res ∧
      pyRound (((rubric15.categories.flatMap (fun cat => cat.criteria)).map
        (fun cr => (cr.max_points : ℚ) * (3/5))).sum) = 60 ∧
      res.overall.total_points ≠ ((60 : ℤ) : ℚ) := by
  refine ⟨bothAxesBuild rubric15 (bothAxesNumChunks textLong)
      (bothAxesPerCat rubric15 textLong allFailScorer),
    eval_rubric15_allFail, by decide, ?_⟩
  rw [bothAxesPerCat_textLong, bothAxesNumChunks_textLong]
  decide

/- ## C10: unknown criterion ids in a scorer response -/

/-- C10: a criterion id absent from the rubric normalizes with
`crit_max.get(cid, 0) = 0`, so its clamped score is 0; the entry stays in
the result's scores dict; and because `crit_to_cat` has no entry for it,
dropping it from the response leaves every category block and the whole
overall block unchanged. -/
theorem spec2proof_C10 (r : NewRubric) (cid : String) (hcid : cid ∉ allCriterionIds r)
    (raw raw' : RawResult)
    (hsc : dictItems raw'.scores = (dictItems raw.scores).filter (fun p => p.1 ≠ cid)) :
    (∀ p ∈ (normalizeNewFormatResult r raw).scores, p.1 = cid → p.2.score = 0) ∧
    (cid ∈ raw.scores.map Prod.fst →
      cid ∈ (normalizeNewFormatResult r raw).scores.map Prod.fst) ∧
    (normalizeNewFormatResult r raw).categories = (normalizeNewFormatResult r raw').categories ∧
    (normalizeNewFormatResult r raw).overall = (normalizeNewFormatResult r raw').overall := by
  have hmax0 : critMaxD r cid = 0 := critMaxD_of_not_mem hcid
  have hcat0 : critToCat r cid = none := critToCat_of_not_mem hcid
  have hscores_filter : normScores r raw'.scores =
      (normScores r raw.scores).filter (fun p => p.1 ≠ cid) := by
    unfold normScores
    rw [hsc, List.filter_map]
    apply congrArg
    apply List.filter_congr
    intro a _
    rfl
  have hcatPoints : ∀ catId, catPointsAcc r (normScores r raw'.scores) catId =
      catPointsAcc r (normScores r raw.scores) catId := by
    intro catId
    rw [hscores_filter, catPointsAcc_eq, catPointsAcc_eq, List.filter_filter]
    apply congrArg
    apply congrArg
    apply List.filter_congr
    intro a _
    show (decide (critToCat r a.1 = some catId) && decide (a.1 ≠ cid)) =
      decide (critToCat r a.1 = some catId)
    by_cases hP : critToCat r a.1 = some catId
    · have hne : a.1 ≠ cid := by
        intro hc
        rw [hc, hcat0] at hP
        exact Option.noConfusion hP
      simp [hP, hne]
    · simp [hP]
  have hcats : normCategories r (normScores r raw.scores) =
      normCategories r (normScores r raw'.scores) := by
    unfold normCategories
    apply List.map_congr_left
    intro p _
    rw [hcatPoints p.1]
  refine ⟨?_, ?_, hcats, ?_⟩
  · intro p hp hpc
    have hp2 : p ∈ normScores r raw.scores := hp
    unfold normScores at hp2
    rcases List.mem_map.mp hp2 with ⟨q, hq, heq⟩
    have hf1 := congrArg Prod.fst heq
    have hf2 := congrArg Prod.snd heq
    simp only at hf1 hf2
    rw [← hf2]
    have hq1 : q.1 = cid := by rw [hf1, hpc]
    show ((max 0 (min (pyRound (q.2.score.getD 0)) (critMaxD r q.1)) : ℤ) : ℚ) = 0
    rw [hq1, hmax0]
    have hzero : max 0 (min (pyRound (q.2.score.getD 0)) 0) = 0 := by omega
    rw [hzero]
    exact Int.cast_zero
  · intro hmem
    have h1 : (normScores r raw.scores).map Prod.fst =
        (dictItems raw.scores).map Prod.fst := by
      unfold normScores
      rw [List.map_map]
      rfl
    have h2 : cid ∈ (dictItems raw.scores).map Prod.fst := by
      rw [map_fst_dictItems]
      exact mem_dictKeys.mpr hmem
    show cid ∈ (normScores r raw.scores).map Prod.fst
    rw [h1]
    exact h2
  · show normOverall r (normCategories r (normScores r raw.scores)) =
      normOverall r (normCategories r (normScores r raw'.scores))
    rw [hcats]

/-- C10 witness: the unknown id `zz` in a response against the
one-criterion rubric scores 0, stays present, and removing it changes
neither the category blocks nor the overall block. -/
theorem spec2proof_C10_witness :
    ("zz" ∉ allCriterionIds rubricOneCat ∧
      dictItems rawWithoutUnknown.scores =
        (dictItems rawWithUnknown.scores).filter (fun p => p.1 ≠ "zz")) ∧
    ((∀ p ∈ (normalizeNewFormatResult rubricOneCat rawWithUnknown).scores,
        p.1 = "zz" → p.2.score = 0) ∧
      ("zz" ∈ rawWithUnknown.scores.map Prod.fst →
        "zz" ∈ (normalizeNewFormatResult rubricOneCat rawWithUnknown).scores.map Prod.fst) ∧
      (normalizeNewFormatResult rubricOneCat rawWithUnknown).categories =
        (normalizeNewFormatResult rubricOneCat rawWithoutUnknown).categories ∧
      (normalizeNewFormatResult rubricOneCat rawWithUnknown).overall =
        (normalizeNewFormatResult rubricOneCat rawWithoutUnknown).overall) :=
  ⟨⟨by decide, by decide⟩,
    spec2proof_C10 rubricOneCat "zz" (by decide) rawWithUnknown rawWithoutUnknown (by decide)⟩

end VideoEval
